import Mathlib

/-!
Verification of the natural-language specification of the `interpreter`
repository (a sandboxed tree-walking interpreter for a small scripting
language, written in JavaScript) against its source code.

The development shallowly embeds the claim-relevant parts of the source:

* `src/tokenizer.js` — the line-oriented tokenizer (`tokenize`);
* `src/evaluator.js` — the AST evaluator fragment used by the claims
  (`evalNode` over literals, variables, arrays, objects, `Get`, `Index`,
  `Call`, unary and binary operators, and `for (x in e)` loops), together
  with the string-interpolation helper (`interpolate`);
* `src/utils.js` (an unnamed source part) — the `ResourceLimiter`;
* `src/interpreter.js` — the simple token-level fallback interpreter
  (`tokenize`, `evaluateExpression`, `executeStatement`, `interpret`);
* `src/interpreter-worker.js` — the worker `run` branch that decides
  whether a finished script terminates or keeps awaiting events.

JavaScript numbers are modelled as exact rationals extended with `NaN`
and signed infinities (`JSNum`).  None of the claims settled here depends
on IEEE-754 double rounding; facts that would (shortest-round-trip number
formatting of non-integral values) are confined to clearly-marked
placeholder branches that no settled claim exercises.
-/

/-! ## Character classes (JavaScript regular-expression classes used by the
tokenizers: `\s`, `\d`, `[a-zA-Z_]`, `\w`).  The ASCII core of `\s` is
modelled; the claims only exercise ASCII input. -/

def isSpaceCh (c : Char) : Bool :=
  c = ' ' ∨ c = '\t' ∨ c = '\r' ∨ c = '\x0b' ∨ c = '\x0c'

def isDigitCh (c : Char) : Bool :=
  '0' ≤ c ∧ c ≤ '9'

def isIdentStartCh (c : Char) : Bool :=
  ('a' ≤ c ∧ c ≤ 'z') ∨ ('A' ≤ c ∧ c ≤ 'Z') ∨ c = '_'

def isWordCh (c : Char) : Bool :=
  isIdentStartCh c ∨ isDigitCh c

def digitVal (c : Char) : Nat := c.toNat - '0'.toNat

/-! ## Exact rationals

`Q` is an exact fraction representation (numerator, positive denominator;
fractions are not reduced).  It is used instead of Mathlib's `ℚ` so that
every arithmetic operation reduces inside the kernel; value equality and
order are by cross-multiplication.  Every constructor below keeps the
denominator positive. -/

structure Q where
  n : ℤ
  d : ℤ
deriving DecidableEq, Repr

instance : OfNat Q m := ⟨⟨m, 1⟩⟩

@[simp] theorem Q_n_ofNat {m : Nat} : (OfNat.ofNat m : Q).n = OfNat.ofNat m := rfl

@[simp] theorem Q_d_ofNat {m : Nat} : (OfNat.ofNat m : Q).d = 1 := rfl

def Q.ofInt (i : ℤ) : Q := ⟨i, 1⟩

def Q.ofNat (m : Nat) : Q := ⟨m, 1⟩

/-- Value equality of fractions (denominators are positive). -/
def qEq (a b : Q) : Bool := a.n * b.d = b.n * a.d

/-- Value order of fractions (denominators are positive). -/
def qLt (a b : Q) : Bool := a.n * b.d < b.n * a.d

def qIsZero (a : Q) : Bool := a.n = 0

def qIsNeg (a : Q) : Bool := a.n < 0

def qNeg (a : Q) : Q := ⟨-a.n, a.d⟩

def qAdd (a b : Q) : Q := ⟨a.n * b.d + b.n * a.d, a.d * b.d⟩

def qSub (a b : Q) : Q := ⟨a.n * b.d - b.n * a.d, a.d * b.d⟩

def qMul (a b : Q) : Q := ⟨a.n * b.n, a.d * b.d⟩

/-- Division; callers ensure `b` is non-zero.  The sign is moved to the
numerator to keep the denominator positive. -/
def qDiv (a b : Q) : Q :=
  if b.n < 0 then ⟨-(a.n * b.d), a.d * -b.n⟩ else ⟨a.n * b.d, a.d * b.n⟩

/-- Truncation toward zero (the rounding JavaScript `%` uses). -/
def qTrunc (a : Q) : ℤ := Int.tdiv a.n a.d

def qMax (a b : Q) : Q := if qLt a b then b else a

/-! ## JavaScript numbers

`JSNum` models the host number type: `NaN`, the two infinities, and finite
values (taken as exact rationals; see the header note on rounding). -/

inductive JSNum where
  | nan : JSNum
  | inf (neg : Bool) : JSNum
  | fin (q : Q) : JSNum
deriving DecidableEq, Repr

instance : OfNat JSNum n := ⟨.fin ⟨n, 1⟩⟩

/-- Truthiness of a JavaScript number: `0` and `NaN` are falsy.  (The sign
of zero is not tracked; no settled claim distinguishes `-0`.) -/
def JSNum.truthy : JSNum → Bool
  | .nan => false
  | .inf _ => true
  | .fin q => ¬ qIsZero q

/-- JavaScript `<` on numbers (`NaN` compares false against everything). -/
def JSNum.ltb : JSNum → JSNum → Bool
  | .nan, _ => false
  | _, .nan => false
  | .inf n₁, .inf n₂ => n₁ ∧ ¬ n₂
  | .inf n₁, .fin _ => n₁
  | .fin _, .inf n₂ => ¬ n₂
  | .fin a, .fin b => qLt a b

/-- JavaScript `<=` on numbers: `a <= b` is `¬ (b < a)` unless `NaN` is
involved, in which case the result is false. -/
def JSNum.leb : JSNum → JSNum → Bool
  | .nan, _ => false
  | _, .nan => false
  | a, b => ¬ JSNum.ltb b a

/-- Value equality of numbers (`NaN` is equal to nothing, itself
included), as used by strict equality. -/
def JSNum.eqb : JSNum → JSNum → Bool
  | .nan, _ => false
  | _, .nan => false
  | .inf n₁, .inf n₂ => n₁ = n₂
  | .fin a, .fin b => qEq a b
  | _, _ => false

def JSNum.add : JSNum → JSNum → JSNum
  | .nan, _ => .nan
  | _, .nan => .nan
  | .inf n₁, .inf n₂ => if n₁ = n₂ then .inf n₁ else .nan
  | .inf n, .fin _ => .inf n
  | .fin _, .inf n => .inf n
  | .fin a, .fin b => .fin (qAdd a b)

def JSNum.neg : JSNum → JSNum
  | .nan => .nan
  | .inf n => .inf (¬ n)
  | .fin a => .fin (qNeg a)

def JSNum.sub (a b : JSNum) : JSNum := a.add b.neg

def JSNum.mul : JSNum → JSNum → JSNum
  | .nan, _ => .nan
  | _, .nan => .nan
  | .inf n₁, .inf n₂ => .inf (n₁ ≠ n₂)
  | .inf n, .fin b => if qIsZero b then .nan else .inf (n ≠ qIsNeg b)
  | .fin a, .inf n => if qIsZero a then .nan else .inf (n ≠ qIsNeg a)
  | .fin a, .fin b => .fin (qMul a b)

def JSNum.div : JSNum → JSNum → JSNum
  | .nan, _ => .nan
  | _, .nan => .nan
  | .inf _, .inf _ => .nan
  | .inf n, .fin b => .inf (n ≠ qIsNeg b)
  | .fin _, .inf _ => .fin ⟨0, 1⟩
  | .fin a, .fin b =>
      if qIsZero b then
        if qIsZero a then .nan else .inf (qIsNeg a)
      else .fin (qDiv a b)

/-- JavaScript `%` (remainder with the sign of the dividend). -/
def JSNum.modOp : JSNum → JSNum → JSNum
  | .nan, _ => .nan
  | _, .nan => .nan
  | .inf _, _ => .nan
  | .fin a, .inf _ => .fin a
  | .fin a, .fin b =>
      if qIsZero b then .nan
      else .fin (qSub a (qMul b (Q.ofInt (qTrunc (qDiv a b)))))

/-! ## String-to-number conversion (JavaScript `ToNumber` on strings)

The decimal core of the `StringNumericLiteral` grammar: optional
whitespace trimming, optional sign, `Infinity`, decimal digits with an
optional fraction and exponent, and the `0x`/`0o`/`0b` radix forms.  An
empty (or all-whitespace) string converts to `0`; anything else to `NaN`. -/

def isHexDigitCh (c : Char) : Bool :=
  isDigitCh c ∨ ('a' ≤ c ∧ c ≤ 'f') ∨ ('A' ≤ c ∧ c ≤ 'F')

def hexVal (c : Char) : Nat :=
  if isDigitCh c then digitVal c
  else if 'a' ≤ c ∧ c ≤ 'f' then c.toNat - 'a'.toNat + 10
  else c.toNat - 'A'.toNat + 10

def digitsToNat (base : Nat) (ds : List Char) : Nat :=
  ds.foldl (fun acc c => acc * base + hexVal c) 0

/-- The exact value of `intPart.fracPart`: numerator over a power of ten. -/
def decValue (intPart fracPart : List Char) : Q :=
  ⟨(digitsToNat 10 intPart : ℤ) * (10 : ℤ) ^ fracPart.length +
     (digitsToNat 10 fracPart : ℤ),
   (10 : ℤ) ^ fracPart.length⟩

/-- Scale by a decimal exponent: multiply or divide by `10 ^ e`. -/
def applyExp (m : Q) (negExp : Bool) (e : Nat) : Q :=
  if negExp then ⟨m.n, m.d * (10 : ℤ) ^ e⟩ else ⟨m.n * (10 : ℤ) ^ e, m.d⟩

/-- Parse an unsigned decimal-literal body: `digits [. digits] [e [sign]
digits]` or `. digits [e ...]`.  Returns `none` when the string is not of
this shape (in which case `ToNumber` yields `NaN`). -/
def parseDecBody (cs : List Char) : Option Q :=
  let intPart := cs.takeWhile isDigitCh
  let rest₁ := cs.dropWhile isDigitCh
  let (fracPart, rest₂) : List Char × List Char :=
    match rest₁ with
    | '.' :: t => (t.takeWhile isDigitCh, t.dropWhile isDigitCh)
    | _ => ([], rest₁)
  if intPart = [] ∧ fracPart = [] then none
  else
    let mantissa := decValue intPart fracPart
    match rest₂ with
    | [] => some mantissa
    | 'e' :: t => parseExp mantissa t
    | 'E' :: t => parseExp mantissa t
    | _ => none
where
  parseExp (m : Q) (t : List Char) : Option Q :=
    let (sgn, t') : Bool × List Char :=
      match t with
      | '+' :: u => (false, u)
      | '-' :: u => (true, u)
      | _ => (false, t)
    if t' = [] ∨ ¬ t'.all isDigitCh then none
    else some (applyExp m sgn (digitsToNat 10 t'))

/-- JavaScript `ToNumber` applied to a string (decimal / radix / Infinity
core; see section header). -/
def strToNum (cs : List Char) : JSNum :=
  let t := (cs.dropWhile isSpaceCh).reverse.dropWhile isSpaceCh |>.reverse
  match t with
  | [] => .fin ⟨0, 1⟩
  | _ =>
    let (sgn, body) : Bool × List Char :=
      match t with
      | '+' :: u => (false, u)
      | '-' :: u => (true, u)
      | _ => (false, t)
    if body = ['I','n','f','i','n','i','t','y'] then .inf sgn
    else
      match body with
      | '0' :: 'x' :: ds =>
        if sgn = false ∧ ds ≠ [] ∧ ds.all isHexDigitCh then .fin ⟨(digitsToNat 16 ds : ℤ), 1⟩
        else .nan
      | '0' :: 'X' :: ds =>
        if sgn = false ∧ ds ≠ [] ∧ ds.all isHexDigitCh then .fin ⟨(digitsToNat 16 ds : ℤ), 1⟩
        else .nan
      | '0' :: 'o' :: ds =>
        if sgn = false ∧ ds ≠ [] ∧ ds.all (fun c => '0' ≤ c ∧ c ≤ '7') then
          .fin ⟨(digitsToNat 8 ds : ℤ), 1⟩
        else .nan
      | '0' :: 'b' :: ds =>
        if sgn = false ∧ ds ≠ [] ∧ ds.all (fun c => c = '0' ∨ c = '1') then
          .fin ⟨(digitsToNat 2 ds : ℤ), 1⟩
        else .nan
      | _ =>
        match parseDecBody body with
        | some q => .fin (if sgn then qNeg q else q)
        | none => .nan

/-! ## Number-to-string conversion

Exact for `NaN`, infinities, integers, and finite values whose reduced
denominator divides a power of ten (these agree with the host's
shortest-round-trip printing on the magnitudes the scripts use).  Other
rationals fall into a placeholder branch that no settled claim exercises
(their host printing depends on double rounding). -/

def digitChar (d : Nat) : Char :=
  match d with
  | 0 => '0' | 1 => '1' | 2 => '2' | 3 => '3' | 4 => '4'
  | 5 => '5' | 6 => '6' | 7 => '7' | 8 => '8' | 9 => '9'
  | _ => '?'

/-- Decimal digits of `n`, most significant first (the digits the host
prints for a nonnegative integer). -/
def natToDigits (n : Nat) : List Char :=
  if n < 10 then [digitChar n]
  else natToDigits (n / 10) ++ [digitChar (n % 10)]
termination_by n
decreasing_by simp_wf; omega

def intToStr (i : ℤ) : List Char :=
  if i < 0 then '-' :: natToDigits i.natAbs else natToDigits i.natAbs

def pow10Exp (d : Nat) : Option Nat :=
  (List.range 21).find? (fun k => d ∣ 10 ^ k)

def numToStr (n : JSNum) : List Char :=
  match n with
  | .nan => ['N','a','N']
  | .inf false => ['I','n','f','i','n','i','t','y']
  | .inf true => '-' :: ['I','n','f','i','n','i','t','y']
  | .fin q =>
    let g : ℤ := (Int.gcd q.n q.d : ℤ)
    let num := Int.tdiv q.n g
    let den := Int.tdiv q.d g
    if den = 1 then intToStr num
    else
      match pow10Exp den.natAbs with
      | some k =>
        let scaled : ℤ := num * (Int.tdiv ((10 : ℤ) ^ k) den)
        let s := natToDigits scaled.natAbs
        let s := if s.length ≤ k then List.replicate (k + 1 - s.length) '0' ++ s else s
        let whole := s.take (s.length - k)
        let frac := s.drop (s.length - k)
        (if num < 0 then ['-'] else []) ++ whole ++ '.' :: frac
      | none => ['<','n','o','n','i','n','t','e','g','r','a','l','>']

/-! ## Tokens

Shared token representation for both tokenizers in the repository
(`src/tokenizer.js` and the fallback tokenizer inside `src/interpreter.js`).
`TVal.num` holds the `parseFloat` result of a NUMBER token; all other
token values are strings. -/

inductive TKind where
  | NUMBER | STRING | IDENTIFIER | KEYWORD | OPERATOR | SEMICOLON | NEWLINE
deriving DecidableEq, Repr

inductive TVal where
  | num (q : Q)
  | str (s : List Char)
deriving DecidableEq, Repr

structure Token where
  kind : TKind
  value : TVal
  line : Nat
deriving DecidableEq, Repr

/-- Characters accepted by the number scanner of both tokenizers
(the regular-expression class `[\d.]`). -/
def isNumCh (c : Char) : Bool := isDigitCh c ∨ c = '.'

/-- JavaScript `parseFloat` restricted to the `[\d.]+` runs produced by the
number scanner (such a run starts with a digit and contains no exponent):
leading digits, then an optional fraction up to the second dot; the rest of
the run is ignored.  For example `1.2.3` parses as `1.2` and `1..2` as `1`. -/
def parseFloatQ (cs : List Char) : Q :=
  let ip := cs.takeWhile isDigitCh
  let fp :=
    match cs.dropWhile isDigitCh with
    | '.' :: t => t.takeWhile isDigitCh
    | _ => []
  decValue ip fp

theorem length_dropWhile_le' (p : Char → Bool) (l : List Char) :
    (l.dropWhile p).length ≤ l.length := by
  induction l with
  | nil => simp [List.dropWhile]
  | cons c cs ih =>
    rw [List.dropWhile]
    split
    · exact Nat.le_succ_of_le ih
    · simp

namespace Tokenizer

/-- String-literal scanner of `src/tokenizer.js` (lines 67-87): consumes the
characters after the opening quote up to and including the closing quote,
translating the escapes `\n` and `\t` and passing any other escaped
character through; an unterminated literal consumes the rest of the line,
and a backslash that ends the line is taken literally.  Returns the literal
content and the remaining characters of the line. -/
def scanStr (q : Char) : List Char → (List Char × List Char)
  | [] => ([], [])
  | [c] => if c = q then ([], []) else ([c], [])
  | c :: d :: cs =>
    if c = q then ([], d :: cs)
    else if c = '\\' then
      let e := if d = 'n' then '\n' else if d = 't' then '\t' else d
      let p := scanStr q cs
      (e :: p.1, p.2)
    else
      let p := scanStr q (d :: cs)
      (c :: p.1, p.2)

theorem scanStr_rest_le (q : Char) : (cs : List Char) →
    (scanStr q cs).2.length ≤ cs.length
  | [] => by simp [scanStr]
  | [c] => by simp only [scanStr]; split <;> simp
  | c :: d :: cs => by
    simp only [scanStr]
    split
    · simp
    · split
      · have h := scanStr_rest_le q cs
        simp
        omega
      · have h := scanStr_rest_le q (d :: cs)
        simp
        simp at h
        omega

/-- Reserved words of `src/tokenizer.js`. -/
def keywords : List (List Char) :=
  ["if", "else", "elseif", "end", "while", "for", "function", "return",
   "break", "continue", "true", "false", "null", "undefined", "and", "or",
   "not", "class", "new", "this", "in"].map String.toList

/-- Two-character operators of `src/tokenizer.js`, matched greedily. -/
def isTwoCharOp (c d : Char) : Bool :=
  [('=','='), ('!','='), ('<','='), ('>','='), ('+','='), ('-','='),
   ('*','='), ('/','='), ('&','&'), ('|','|'), (':',':')].contains (c, d)

/-- Operator-token constructor: a lone semicolon becomes a SEMICOLON token,
anything else an OPERATOR token (`src/tokenizer.js` lines 137-143). -/
def opTok (s : List Char) (n : Nat) : Token :=
  if s = [';'] then ⟨.SEMICOLON, .str s, n⟩ else ⟨.OPERATOR, .str s, n⟩

/-- Character loop of `tokenize` for one line (`src/tokenizer.js` lines
56-144).  Whitespace is skipped; `#` starts a comment that discards the rest
of the line; quotes start string literals; digits start numbers; identifier
characters start identifiers/keywords; every remaining character falls
through to the operator branch, which greedily pairs two-character
operators and otherwise emits the single character as an OPERATOR (or
SEMICOLON) token.  There is no branch that discards an unrecognized
character. -/
def lineToks (n : Nat) (cs : List Char) : List Token :=
  match cs with
  | [] => []
  | c :: cs =>
    if isSpaceCh c then lineToks n cs
    else if c = '#' then []
    else if c = '"' ∨ c = '\'' then
      let p := scanStr c cs
      ⟨.STRING, .str p.1, n⟩ :: lineToks n p.2
    else if isDigitCh c then
      ⟨.NUMBER, .num (parseFloatQ (c :: cs.takeWhile isNumCh)), n⟩ ::
        lineToks n (cs.dropWhile isNumCh)
    else if isIdentStartCh c then
      let id := c :: cs.takeWhile isWordCh
      ⟨(if keywords.contains id then .KEYWORD else .IDENTIFIER), .str id, n⟩ ::
        lineToks n (cs.dropWhile isWordCh)
    else
      match cs with
      | [] => [opTok [c] n]
      | d :: cs' =>
        if isTwoCharOp c d then opTok [c, d] n :: lineToks n cs'
        else opTok [c] n :: lineToks n (d :: cs')
termination_by cs.length
decreasing_by
  all_goals simp
  all_goals first
    | omega
    | exact Nat.lt_succ_of_le (scanStr_rest_le _ _)
    | exact Nat.lt_succ_of_le (length_dropWhile_le' _ _)

/-- Split source text into lines at newline characters, as
`code.split("\n")` does (an empty source yields one empty line). -/
def splitLines : List Char → List (List Char)
  | [] => [[]]
  | c :: cs =>
    if c = '\n' then [] :: splitLines cs
    else
      match splitLines cs with
      | [] => [[c]]
      | l :: ls => (c :: l) :: ls

/-- Line loop of `tokenize` (`src/tokenizer.js` lines 42-152).  A blank
(all-whitespace) line emits a NEWLINE token if any tokens were produced so
far; a non-blank line is scanned by `lineToks` and followed by a NEWLINE
token if it produced at least one token. -/
def tokenizeGo : Nat → List Token → List (List Char) → List Token
  | _, acc, [] => acc
  | n, acc, l :: ls =>
    if l.all isSpaceCh then
      tokenizeGo (n + 1)
        (acc ++ (if acc.isEmpty then [] else [⟨.NEWLINE, .str ['\n'], n⟩])) ls
    else
      let ts := lineToks n l
      tokenizeGo (n + 1)
        (acc ++ ts ++ (if ts.isEmpty then [] else [⟨.NEWLINE, .str ['\n'], n⟩])) ls

/-- The `tokenize` entry point of `src/tokenizer.js`. -/
def tokenize (code : List Char) : List Token :=
  tokenizeGo 0 [] (splitLines code)

end Tokenizer

/-! ## String interpolation (`interpolate` in `src/evaluator.js`, lines 36-61)

The helper collects every match of the host regular expression
`\$\{([^}]+)\}` over the original string (`str.matchAll`), evaluates each
captured expression — re-tokenizing and re-parsing it and running
`evalNode`, with the whole attempt wrapped in `try/catch` so that a failure
yields the original matched text — and then substitutes the results by
folding `str.replace(match, replacement)` over the match list, each
`replace` rewriting the first occurrence of the matched text.

The sub-expression pipeline (`tokenize`/`parse`/`evalNode`/`String`) is
abstracted as a parameter `ev : List Char → Option (List Char)`; `none`
models the caught failure.  (`src/parser.js` is required by the evaluator
but is not part of the sources; only the interpolation logic itself is
under verification here.) -/

/-- Full text of one regular-expression match: the expression wrapped in
dollar-brace delimiters. -/
def holeText (e : List Char) : List Char := '$' :: '{' :: (e ++ ['}'])

/-- Test for a character other than the closing brace (the class `[^}]`). -/
def notBrace (c : Char) : Bool := ¬ c = '}'

/-- Split at the first closing brace: returns the non-empty run of
non-brace characters and the remainder after the brace, mirroring the
greedy `([^}]+)\}` part of the pattern; `none` when the character after
`${` is already `}` or no closing brace follows. -/
def braceSplit : List Char → Option (List Char × List Char)
  | [] => none
  | c :: cs =>
    if c = '}' then none
    else
      match braceSplit cs with
      | some (e, rest) => some (c :: e, rest)
      | none =>
        match cs with
        | '}' :: rest => some ([c], rest)
        | _ => none

theorem braceSplit_lt {cs e rest : List Char}
    (h : braceSplit cs = some (e, rest)) : rest.length < cs.length := by
  induction cs generalizing e rest with
  | nil => simp [braceSplit] at h
  | cons c cs ih =>
    simp only [braceSplit] at h
    split at h
    · exact absurd h (by simp)
    · split at h
      · rename_i e' rest' heq
        simp at h
        obtain ⟨he, hr⟩ := h
        subst hr
        have := ih heq
        simp
        omega
      · split at h
        · rename_i rest' heq
          simp at h
          obtain ⟨he, hr⟩ := h
          subst hr
          simp
          omega
        · exact absurd h (by simp)

theorem braceSplit_eq {cs e rest : List Char}
    (h : braceSplit cs = some (e, rest)) :
    cs = e ++ '}' :: rest ∧ e ≠ [] ∧ e.all notBrace := by
  induction cs generalizing e rest with
  | nil => simp [braceSplit] at h
  | cons c cs ih =>
    simp only [braceSplit] at h
    split at h
    · exact absurd h (by simp)
    · rename_i hc
      split at h
      · rename_i e' rest' heq
        simp at h
        obtain ⟨he, hr⟩ := h
        obtain ⟨h1, h2, h3⟩ := ih heq
        subst hr
        refine ⟨by rw [h1, ← he]; simp, by simp [← he], ?_⟩
        rw [← he]
        simp [notBrace, hc]
        simpa [notBrace] using h3
      · split at h
        · rename_i rest' heq
          simp at h
          obtain ⟨he, hr⟩ := h
          subst hr
          refine ⟨by simp [← he], by simp [← he], by simp [← he, notBrace, hc]⟩
        · exact absurd h (by simp)

theorem braceSplit_append {e t : List Char}
    (hne : e ≠ []) (hall : ∀ c ∈ e, c ≠ '}') :
    braceSplit (e ++ '}' :: t) = some (e, t) := by
  induction e with
  | nil => simp at hne
  | cons c e ih =>
    have hc : ¬ c = '}' := hall c (by simp)
    rcases he : e with _ | ⟨d, e'⟩
    · simp [braceSplit, hc]
    · have hd : ¬ d = '}' := hall d (by simp [he])
      subst he
      rw [List.cons_append, braceSplit,
        ih (by simp) (fun x hx => hall x (by simp [hx]))]
      simp [hc]
      intro rest hco
      injection hco with h1 h2
      exact hd h1

/-- Match scanner for `\$\{([^}]+)\}` with the `g` flag: scans left to
right; at a `${` it takes the non-empty brace-free run and its closing
brace as a match and resumes after it, otherwise it advances one
character (as the host engine retries the pattern at the next index). -/
def scanM : List Char → List (List Char)
  | [] => []
  | c :: cs =>
    if c = '$' then
      match cs with
      | '{' :: rest =>
        (match hb : braceSplit rest with
         | some (e, after) => e :: scanM after
         | none => scanM ('{' :: rest))
      | [] => []
      | d :: cs' => scanM (d :: cs')
    else scanM cs
termination_by cs => cs.length
decreasing_by
  all_goals simp
  all_goals first
    | omega
    | (have h9 := braceSplit_lt hb; omega)

/-- JavaScript `str.replace(pat, rep)` with a string pattern: rewrite the
first occurrence of `pat`, or return the string unchanged if `pat` does
not occur.  (None of the replacement strings arising in the settled
claims contains the host's special `$`-substitution patterns.) -/
def replaceFirst (s pat rep : List Char) : List Char :=
  if pat.isPrefixOf s then rep ++ s.drop pat.length
  else
    match s with
    | [] => []
    | c :: cs => c :: replaceFirst cs pat rep
termination_by s.length
decreasing_by simp

/-- The `interpolate` helper of `src/evaluator.js`: collect all matches
from the original string, evaluate each (a failure keeps the matched
text), then fold first-occurrence replacement over the match list. -/
def interpolate (ev : List Char → Option (List Char)) (s : List Char) : List Char :=
  (scanM s).foldl
    (fun acc e =>
      replaceFirst acc (holeText e)
        (match ev e with
         | some v => v
         | none => holeText e))
    s

/-! Segment views of interpolated strings, used to state what
`interpolate` does: a string decomposes into literal text and
interpolation holes. -/

inductive Seg where
  | lit (s : List Char)
  | hole (e : List Char)
deriving DecidableEq, Repr

def Seg.render : Seg → List Char
  | .lit s => s
  | .hole e => holeText e

def renderSegs (segs : List Seg) : List Char :=
  (segs.map Seg.render).flatten

/-- Segment-wise substitution: the behaviour the specification describes —
each hole whose evaluation succeeds is replaced by its value, each hole
whose evaluation fails keeps its original text in place. -/
def substSeg (ev : List Char → Option (List Char)) : Seg → Seg
  | .lit s => .lit s
  | .hole e =>
    match ev e with
    | some v => .lit v
    | none => .hole e

/-- Characters that may appear in a well-formed hole expression: anything
except the delimiter characters. -/
def plainChar (c : Char) : Bool := ¬ (c = '$' ∨ c = '{' ∨ c = '}')

/-- Well-formed segment: literal text free of `$` (so it can start no
match), holes with non-empty delimiter-free expressions. -/
def segWF : Seg → Bool
  | .lit s => s.all (fun c => ¬ c = '$')
  | .hole e => ¬ e.isEmpty ∧ e.all plainChar

/-! ## Resource limiter (`ResourceLimiter` in `src/utils.js`)

Wall-clock time and heap sampling are host effects; `checkLimits` and
`getUsage` therefore take the sampled elapsed time (`cpuTimeMs`) and
memory delta (`memoryUsageMB`) as explicit arguments — the code computes
exactly these two quantities from its samples before comparing. -/

/-- Limit fields, after the constructor's `limits.maxX || default`
resolution (`undefined` and other falsy values fall back to the default;
`Infinity` — `JSNum.inf false` — is a valid, truthy limit, used by the
worker's defaults). -/
structure Limits where
  maxCommands : JSNum
  maxMemoryMB : JSNum
  maxCpuTimeMs : JSNum
deriving DecidableEq, Repr

/-- Constructor defaulting (`src/utils.js` lines 15-21): each provided
value is kept when truthy, otherwise the default applies
(`maxCommands: 100`, `maxMemoryMB: 50`, `maxCpuTimeMs: 5000`). -/
def resolveLimit (v : Option JSNum) (dflt : Q) : JSNum :=
  match v with
  | some n => if n.truthy then n else .fin dflt
  | none => .fin dflt

def mkLimits (maxCommands maxMemoryMB maxCpuTimeMs : Option JSNum) : Limits :=
  ⟨resolveLimit maxCommands ⟨100, 1⟩, resolveLimit maxMemoryMB ⟨50, 1⟩,
   resolveLimit maxCpuTimeMs ⟨5000, 1⟩⟩

/-- Mutable counter state of a `ResourceLimiter` (the two timestamp /
memory baselines are implicit in the sampled deltas passed to
`checkLimits`). -/
structure ResourceLimiter where
  limits : Limits
  commandCount : Nat
deriving DecidableEq, Repr

def ResourceLimiter.fresh (l : Limits) : ResourceLimiter := ⟨l, 0⟩

/-- The three limit errors, in the order `checkLimits` tests them. -/
inductive LimitError where
  | commands (max : JSNum)
  | cpuTime (max : JSNum)
  | memory (max : JSNum)
deriving DecidableEq, Repr

/-- `checkLimits` (`src/utils.js` lines 30-47): command count first, then
elapsed time, then memory delta; each compared with `>=` against its
limit, raising on the first limit reached. -/
def ResourceLimiter.checkLimits (st : ResourceLimiter)
    (cpuTimeMs memoryUsageMB : Q) : Except LimitError Unit :=
  if JSNum.leb st.limits.maxCommands (.fin (Q.ofNat st.commandCount)) then
    .error (.commands st.limits.maxCommands)
  else if JSNum.leb st.limits.maxCpuTimeMs (.fin cpuTimeMs) then
    .error (.cpuTime st.limits.maxCpuTimeMs)
  else if JSNum.leb st.limits.maxMemoryMB (.fin memoryUsageMB) then
    .error (.memory st.limits.maxMemoryMB)
  else .ok ()

/-- `incrementCommand` (`src/utils.js` lines 49-52): increment the
counter, then re-check all limits. -/
def ResourceLimiter.incrementCommand (st : ResourceLimiter)
    (cpuTimeMs memoryUsageMB : Q) : Except LimitError ResourceLimiter :=
  let st' : ResourceLimiter := ⟨st.limits, st.commandCount + 1⟩
  match st'.checkLimits cpuTimeMs memoryUsageMB with
  | .ok _ => .ok st'
  | .error e => .error e

/-- The `{commands, cpuTimeMs, memoryMB, totalMemoryMB, limits}` snapshot
of `getUsage` (`src/utils.js` lines 60-74); the memory delta is clamped to
a non-negative value for display. -/
structure Usage where
  commands : Nat
  cpuTimeMs : Q
  memoryMB : Q
  totalMemoryMB : Q
  limits : Limits
deriving DecidableEq, Repr

def ResourceLimiter.getUsage (st : ResourceLimiter)
    (cpuTimeMs memoryUsageMB totalMemoryMB : Q) : Usage :=
  ⟨st.commandCount, cpuTimeMs, qMax ⟨0, 1⟩ memoryUsageMB, totalMemoryMB, st.limits⟩

/-- A run of `n` consecutive primitive calls: every built-in primitive
calls `incrementCommand` once before doing its work, so `n` primitive
calls perform `n` chained `incrementCommand` steps (the ambient samples
are held fixed; the settled claims concern the command limit). -/
def runCalls (n : Nat) (cpuTimeMs memoryUsageMB : Q) (st : ResourceLimiter) :
    Except LimitError ResourceLimiter :=
  match n with
  | 0 => .ok st
  | n + 1 =>
    match st.incrementCommand cpuTimeMs memoryUsageMB with
    | .ok st' => runCalls n cpuTimeMs memoryUsageMB st'
    | .error e => .error e

/-! ## Runtime values (`src/evaluator.js`)

The evaluator's values are the host's: numbers, strings, booleans, `null`,
`undefined`, arrays, plain objects, and functions.  Arrays and objects
carry a reference identifier (allocated fresh at each literal evaluation)
so that strict equality can compare references; their contents are stored
structurally (the claims settled against this fragment perform no
mutation through aliases).  Host functions are `NativeFn` values:
`log` models a console/custom output primitive from `src/utils.js`
(limiter increment plus chunk emission), and `hostProto` stands for an
inherited member of a host prototype (`Object.prototype` and friends),
which plain-object scope frames and values expose to `in`/member lookup. -/

inductive NativeFn where
  | log
  | exit
  | stub (name : String)
  | hostProto (owner : String) (name : String)
deriving DecidableEq, Repr

inductive Val where
  | num (n : JSNum)
  | str (s : List Char)
  | boolean (b : Bool)
  | null
  | undefined
  | arr (ref : Nat) (elems : List Val)
  | object (ref : Nat) (fields : List (String × Val))
  | native (f : NativeFn)
deriving Repr

/-- JavaScript truthiness. -/
def Val.truthy : Val → Bool
  | .num n => n.truthy
  | .str s => ¬ s.isEmpty
  | .boolean b => b
  | .null => false
  | .undefined => false
  | .arr _ _ => true
  | .object _ _ => true
  | .native _ => true

/-- The runtime value kinds of the language (the specification's data
model): number, string, boolean, null, undefined, array, object,
function. -/
inductive ValKind where
  | number | string | boolean | nullKind | undefinedKind | array | object
  | function
deriving DecidableEq, Repr

def Val.kind : Val → ValKind
  | .num _ => .number
  | .str _ => .string
  | .boolean _ => .boolean
  | .null => .nullKind
  | .undefined => .undefinedKind
  | .arr _ _ => .array
  | .object _ _ => .object
  | .native _ => .function

/-- Strict equality (`===`): values of different kinds are never equal;
numbers compare by value with `NaN` unequal to everything; arrays,
objects and functions compare by reference. -/
def strictEq : Val → Val → Bool
  | .num a, .num b => JSNum.eqb a b
  | .str a, .str b => a = b
  | .boolean a, .boolean b => a = b
  | .null, .null => true
  | .undefined, .undefined => true
  | .arr r _, .arr r' _ => r = r'
  | .object r _, .object r' _ => r = r'
  | .native f, .native g => f = g
  | _, _ => false

/-! `ToString`.  Exact for primitives (numbers per `numToStr`); arrays
join their elements with commas, eliding `null`/`undefined`, as
`Array.prototype.toString` does; plain objects print `[object Object]`.
The host prints a function's source text — a placeholder is used, read by
no settled claim. -/

mutual

def valToStr : Val → List Char
  | .num n => numToStr n
  | .str s => s
  | .boolean b => if b then ['t','r','u','e'] else ['f','a','l','s','e']
  | .null => ['n','u','l','l']
  | .undefined => ['u','n','d','e','f','i','n','e','d']
  | .arr _ elems => arrJoin elems
  | .object _ _ => ['[','o','b','j','e','c','t',' ','O','b','j','e','c','t',']']
  | .native _ => ['f','u','n','c','t','i','o','n']

def arrJoin : List Val → List Char
  | [] => []
  | [v] => arrElemStr v
  | v :: vs => arrElemStr v ++ ',' :: arrJoin vs

def arrElemStr : Val → List Char
  | .null => []
  | .undefined => []
  | v => valToStr v

end

/-- `ToNumber`: booleans and `null` convert numerically, `undefined` to
`NaN`, strings through the string grammar, arrays through their joined
string, objects and functions to `NaN` (their primitive forms are
non-numeric strings). -/
def valToNum : Val → JSNum
  | .num n => n
  | .str s => strToNum s
  | .boolean b => .fin (if b then ⟨1, 1⟩ else ⟨0, 1⟩)
  | .null => .fin ⟨0, 1⟩
  | .undefined => .nan
  | .arr r es => strToNum (valToStr (.arr r es))
  | .object _ _ => .nan
  | .native _ => .nan

/-- `ToPrimitive` (number hint): primitives are themselves; arrays,
objects and functions convert through their string form. -/
def toPrim : Val → Val
  | .arr r es => .str (valToStr (.arr r es))
  | .object r fs => .str (valToStr (.object r fs))
  | .native f => .str (valToStr (.native f))
  | v => v

/-- Code-unit comparison of strings, as the host relational operators
use. -/
def strLt : List Char → List Char → Bool
  | [], [] => false
  | [], _ :: _ => true
  | _ :: _, [] => false
  | a :: as, b :: bs =>
    if a.val < b.val then true
    else if b.val < a.val then false
    else strLt as bs

/-- The abstract relational comparison: both operands to primitives; if
both are then strings, compare lexicographically, otherwise convert both
to numbers (this is where a string operand facing a number is coerced).
`none` is the undefined result (`NaN` involved). -/
def jsLess3 (x y : Val) : Option Bool :=
  match toPrim x, toPrim y with
  | .str a, .str b => some (strLt a b)
  | px, py =>
    match valToNum px, valToNum py with
    | .nan, _ => none
    | _, .nan => none
    | a, b => some (JSNum.ltb a b)

/-- `+`: string concatenation when either primitive form is a string,
numeric addition otherwise. -/
def jsAdd (l r : Val) : Val :=
  match toPrim l, toPrim r with
  | .str a, pr => .str (a ++ valToStr pr)
  | pl, .str b => .str (valToStr pl ++ b)
  | pl, pr => .num ((valToNum pl).add (valToNum pr))

/-- The operator switch of the `Binary` case (`src/evaluator.js` lines
356-385), applied after both operands are evaluated.  Equality is strict;
relational operators follow the host's coercing semantics; `and`/`or`
select an operand by truthiness (`l && r` / `l || r` over already-computed
values). -/
def evalBinaryOp (op : String) (l r : Val) : Except (List Char) Val :=
  match op with
  | "+" => .ok (jsAdd l r)
  | "-" => .ok (.num ((valToNum l).sub (valToNum r)))
  | "*" => .ok (.num ((valToNum l).mul (valToNum r)))
  | "/" => .ok (.num ((valToNum l).div (valToNum r)))
  | "%" => .ok (.num ((valToNum l).modOp (valToNum r)))
  | "==" => .ok (.boolean (strictEq l r))
  | "!=" => .ok (.boolean (¬ strictEq l r))
  | "<" => .ok (.boolean ((jsLess3 l r).getD false))
  | ">" => .ok (.boolean ((jsLess3 r l).getD false))
  | "<=" => .ok (.boolean (match jsLess3 r l with
      | none => false
      | some b => ¬ b))
  | ">=" => .ok (.boolean (match jsLess3 l r with
      | none => false
      | some b => ¬ b))
  | "and" => .ok (if l.truthy then r else l)
  | "or" => .ok (if l.truthy then l else r)
  | _ => .error (("Unknown binary operator: " ++ op).toList)

/-- The operator switch of the `Unary` case (`src/evaluator.js` lines
340-351). -/
def evalUnaryOp (op : String) (v : Val) : Except (List Char) Val :=
  match op with
  | "-" => .ok (.num (valToNum v).neg)
  | "+" => .ok (.num (valToNum v))
  | "!" => .ok (.boolean (¬ v.truthy))
  | "not" => .ok (.boolean (¬ v.truthy))
  | _ => .error (("Unknown unary operator: " ++ op).toList)

/-! ## Member lookup

`obj[key]` / `obj.prop` over the host's objects.  Own properties first
(array elements and `length`; object fields; string characters and
`length`), then inherited prototype members — plain objects and scope
frames inherit from `Object.prototype`, whose member names therefore
answer to `in` and member reads with host functions rather than
`undefined`.  (Prototype members are modelled as opaque `hostProto`
values: the claims only distinguish them from `undefined`; `length` and
`name` of function values, which are data properties in the host, are
approximated the same way and read by no settled claim.) -/

def objectProtoNames : List String :=
  ["constructor", "hasOwnProperty", "isPrototypeOf", "propertyIsEnumerable",
   "toLocaleString", "toString", "valueOf", "__proto__", "__defineGetter__",
   "__defineSetter__", "__lookupGetter__", "__lookupSetter__"]

def arrayProtoNames : List String :=
  ["at", "concat", "copyWithin", "entries", "every", "fill", "filter",
   "find", "findIndex", "findLast", "findLastIndex", "flat", "flatMap",
   "forEach", "includes", "indexOf", "join", "keys", "lastIndexOf", "map",
   "pop", "push", "reduce", "reduceRight", "reverse", "shift", "slice",
   "some", "sort", "splice", "unshift", "values"]

def stringProtoNames : List String :=
  ["at", "charAt", "charCodeAt", "codePointAt", "concat", "endsWith",
   "includes", "indexOf", "lastIndexOf", "padEnd", "padStart", "repeat",
   "slice", "split", "startsWith", "substring", "toLowerCase",
   "toUpperCase", "trim", "trimEnd", "trimStart"]

def numberProtoNames : List String :=
  ["toExponential", "toFixed", "toPrecision"]

def functionProtoNames : List String :=
  ["apply", "bind", "call", "length", "name"]

/-- A canonical array index: a digit string with no leading zero. -/
def parseIndex (key : String) : Option Nat :=
  let cs := key.toList
  if cs ≠ [] ∧ cs.all isDigitCh ∧ (cs = ['0'] ∨ cs.head? ≠ some '0') then
    some (digitsToNat 10 cs)
  else none

def protoVal (owner name : String) : Val := .native (.hostProto owner name)

/-- Member read `v[key]`, `v` not `null`/`undefined` (callers handle
those).  Out-of-range or unknown keys yield `undefined`. -/
def getMember (v : Val) (key : String) : Val :=
  match v with
  | .arr _ elems =>
    if key = "length" then .num (.fin (Q.ofNat elems.length))
    else
      match parseIndex key with
      | some i => (elems.get? i).getD .undefined
      | none =>
        if arrayProtoNames.contains key ∨ key = "toString" then
          protoVal "Array" key
        else if objectProtoNames.contains key then protoVal "Object" key
        else .undefined
  | .object _ fields =>
    match fields.lookup key with
    | some w => w
    | none =>
      if objectProtoNames.contains key then protoVal "Object" key
      else .undefined
  | .str s =>
    if key = "length" then .num (.fin (Q.ofNat s.length))
    else
      match parseIndex key with
      | some i =>
        match s.get? i with
        | some c => .str [c]
        | none => .undefined
      | none =>
        if stringProtoNames.contains key ∨ objectProtoNames.contains key then
          protoVal "String" key
        else .undefined
  | .num _ =>
    if numberProtoNames.contains key ∨ objectProtoNames.contains key then
      protoVal "Number" key
    else .undefined
  | .boolean _ =>
    if objectProtoNames.contains key then protoVal "Boolean" key
    else .undefined
  | .native _ =>
    if functionProtoNames.contains key ∨ objectProtoNames.contains key then
      protoVal "Function" key
    else .undefined
  | .null => .undefined
  | .undefined => .undefined

/-! ## Evaluator state and environments

The environment is the `env` array of scope objects passed to `evalNode`
(outermost first, `env[env.length - 1]` innermost).  Scope objects are
plain host objects, so the `name in env[i]` membership test of `getVar`
also sees the inherited members of `Object.prototype`.

`EvalSt` carries the observable evaluation state: the concatenated output
chunks, the resource limiter, the ambient time/memory samples (host
effects, held fixed during an evaluation), and the reference counter for
array/object allocation. -/

abbrev Frame := List (String × Val)

abbrev Env := List Frame

structure EvalSt where
  output : List Char
  limiter : ResourceLimiter
  cpuTimeMs : Q
  memoryUsageMB : Q
  nextRef : Nat
  shouldExit : Bool
deriving Repr

/-- Control-flow signals thrown by the evaluator fragment: runtime errors
(`throw new Error(message)` and host exceptions) and the `Break` /
`Continue` exit signals.  (Named `Sig` to avoid clashing with a Mathlib
name; it models the tagged non-local exits of `src/evaluator.js`.) -/
inductive Sig where
  | err (msg : List Char)
  | brk
  | cont
deriving DecidableEq, Repr

/-- The host membership test `name in frame` on a plain scope object:
own properties, or inherited `Object.prototype` members. -/
def frameHas (f : Frame) (name : String) : Bool :=
  (f.lookup name).isSome ∨ objectProtoNames.contains name

/-- The read `frame[name]` once `name in frame` holds: the own property,
or the inherited prototype member. -/
def frameGet (f : Frame) (name : String) : Val :=
  match f.lookup name with
  | some v => v
  | none => protoVal "Object" name

def lookupFrames : List Frame → String → Val
  | [], _ => .undefined
  | f :: rest, name =>
    if frameHas f name then frameGet f name else lookupFrames rest name

/-- `getVar` (`src/evaluator.js` lines 18-23): walk the scope chain
innermost-first; a name found in no frame yields `undefined`. -/
def getVar (env : Env) (name : String) : Val :=
  lookupFrames env.reverse name

/-! `safeStringify` of `src/utils.js` (lines 80-126), as used by
`console.log` for non-string arguments: primitives print directly,
functions as `[Function]`, arrays and objects recursively with a depth
cap of 10 (beyond it `[Max Depth Reached]`), arrays showing at most 100
elements and objects at most 50 keys (the `take` limits are threaded as
count arguments).  The circular-reference guard is unreachable here:
modelled values are finite trees. -/

mutual

def safeStringify (depth : Nat) : Val → List Char
  | .null => ['n','u','l','l']
  | .undefined => ['u','n','d','e','f','i','n','e','d']
  | .str s => s
  | .num n => numToStr n
  | .boolean b => if b then ['t','r','u','e'] else ['f','a','l','s','e']
  | .native _ => ['[','F','u','n','c','t','i','o','n',']']
  | .arr _ elems =>
    if depth > 10 then ['[','M','a','x',' ','D','e','p','t','h',' ','R','e','a','c','h','e','d',']']
    else
      '[' :: ssJoin depth 100 elems ++
        (if elems.length > 100 then [',',' ','.','.','.'] else []) ++ [']']
  | .object _ fields =>
    if depth > 10 then ['[','M','a','x',' ','D','e','p','t','h',' ','R','e','a','c','h','e','d',']']
    else
      '{' :: ssJoinFields depth 50 fields ++
        (if fields.length > 50 then [',',' ','.','.','.'] else []) ++ ['}']

def ssJoin (depth : Nat) : Nat → List Val → List Char
  | _, [] => []
  | 0, _ :: _ => []
  | _ + 1, [v] => safeStringify (depth + 1) v
  | budget + 1, v :: vs =>
    safeStringify (depth + 1) v ++
      (if budget = 0 then [] else ',' :: ' ' :: ssJoin depth budget vs)

def ssJoinFields (depth : Nat) : Nat → List (String × Val) → List Char
  | _, [] => []
  | 0, _ :: _ => []
  | _ + 1, [(k, v)] => k.toList ++ ':' :: ' ' :: safeStringify (depth + 1) v
  | budget + 1, (k, v) :: fs =>
    k.toList ++ ':' :: ' ' :: safeStringify (depth + 1) v ++
      (if budget = 0 then [] else ',' :: ' ' :: ssJoinFields depth budget fs)

end

/-- Messages of the three `ResourceLimiter` errors (`src/utils.js` lines
36-46). -/
def limitErrMsg : LimitError → List Char
  | .commands m => "Command limit exceeded: ".toList ++ numToStr m ++ " commands".toList
  | .cpuTime m => "CPU time limit exceeded: ".toList ++ numToStr m ++ "ms".toList
  | .memory m => "Memory limit exceeded: ".toList ++ numToStr m ++ "MB".toList

/-- One rendered `console.log` argument (`src/utils.js` line 148):
strings pass through, everything else through `safeStringify`. -/
def renderArg : Val → List Char
  | .str s => s
  | v => safeStringify 0 v

def joinSpace : List (List Char) → List Char
  | [] => []
  | [s] => s
  | s :: ss => s ++ ' ' :: joinSpace ss

/-- Application of a host function value.  `log` is the output primitive
of `src/utils.js` (`console.log` and custom functions installed into the
global frame): it increments the resource limiter (which may raise a
limit error), renders its arguments, and emits them as one chunk followed
by a newline, returning `undefined`.  Inherited prototype methods are
outside the modelled fragment; no settled claim invokes one. -/
def applyNative (f : NativeFn) (args : List Val) (st : EvalSt) :
    Except (Sig × EvalSt) (Val × EvalSt) :=
  match f with
  | .log =>
    match st.limiter.incrementCommand st.cpuTimeMs st.memoryUsageMB with
    | .error e => .error (.err (limitErrMsg e), st)
    | .ok lim' =>
      let msg := joinSpace (args.map renderArg)
      .ok (.undefined,
        { st with limiter := lim', output := st.output ++ msg ++ ['\n'] })
  | .exit => .error (.err "exit".toList, { st with shouldExit := true })
  | .stub _ =>
    match st.limiter.incrementCommand st.cpuTimeMs st.memoryUsageMB with
    | .error e => .error (.err (limitErrMsg e), st)
    | .ok lim' => .ok (.undefined, { st with limiter := lim' })
  | .hostProto _ _ =>
    .error (.err "host prototype function outside modelled fragment".toList, st)

/-! ## The AST fragment and `evalNode`

The node kinds the claims are about, as the parser produces them:
`Literal`, `Array`, `Object`, `Variable`, `Get`, `Index`, `Call`,
`Unary`, `Binary`, `ExprStmt`, `For` (the `for (x in e)` form), `Break`
and `Continue`.  The remaining statement kinds of `src/evaluator.js`
(assignment, functions, classes, `if`/`while`/`ForRange`, `return`,
`this`, `new`) are outside this fragment; no settled claim is about
them. -/

inductive LitV where
  | num (q : Q)
  | str (s : List Char)
  | boolean (b : Bool)
  | null
  | undefined
deriving DecidableEq, Repr

inductive Node where
  | lit (v : LitV)
  | array (elems : List Node)
  | object (props : List (String × Node))
  | variab (name : String)
  | get (obj : Node) (prop : String)
  | index (obj : Node) (idx : Node)
  | call (callee : Node) (args : List Node)
  | unary (op : String) (e : Node)
  | binary (op : String) (l : Node) (r : Node)
  | exprStmt (e : Node)
  | forIn (id : String) (iterable : Node) (body : List Node)
  | breakStmt
  | continueStmt
deriving Repr

/-- Replace-or-append, preserving first-insertion order: how repeated
keys of an object literal behave on the host's property maps. -/
def upsert (fields : List (String × Val)) (key : String) (v : Val) :
    List (String × Val) :=
  match fields with
  | [] => [(key, v)]
  | (k, w) :: rest =>
    if k = key then (k, v) :: rest else (k, w) :: upsert rest key v

/-! `evalNode` (`src/evaluator.js`), restricted to the fragment above.

Errors, `Break` and `Continue` are thrown values (`Sig`) carrying the
mutated-so-far state, as host exceptions leave side effects in place.

`subEval` abstracts the sub-expression pipeline used by string
interpolation inside the `Literal` case (re-tokenize, re-parse with the
absent `src/parser.js`, evaluate, stringify — see `interpolate`); every
theorem below quantifies over it, and the literals the theorems evaluate
contain no interpolation pattern, making `interpolate` the identity
whatever `subEval` does. -/

mutual

def evalNode (subEval : List Char → Option (List Char)) :
    Node → Env → EvalSt → Except (Sig × EvalSt) (Val × EvalSt)
  | .lit (.num q), _, st => .ok (.num (.fin q), st)
  | .lit (.str s), _, st => .ok (.str (interpolate subEval s), st)
  | .lit (.boolean b), _, st => .ok (.boolean b, st)
  | .lit .null, _, st => .ok (.null, st)
  | .lit .undefined, _, st => .ok (.undefined, st)
  | .array elems, env, st =>
    match evalList subEval elems env st with
    | .error f => .error f
    | .ok (vs, st') =>
      .ok (.arr st'.nextRef vs, { st' with nextRef := st'.nextRef + 1 })
  | .object props, env, st =>
    match evalProps subEval props env st with
    | .error f => .error f
    | .ok (fields, st') =>
      .ok (.object st'.nextRef fields, { st' with nextRef := st'.nextRef + 1 })
  | .variab name, env, st => .ok (getVar env name, st)
  | .get o p, env, st =>
    match evalNode subEval o env st with
    | .error f => .error f
    | .ok (v, st') =>
      if ¬ v.truthy then
        .error (.err "Cannot access property of null/undefined".toList, st')
      else
        .ok (getMember v p, st')
  | .index o ix, env, st =>
    match evalNode subEval o env st with
    | .error f => .error f
    | .ok (v, st₁) =>
      match evalNode subEval ix env st₁ with
      | .error f => .error f
      | .ok (iv, st₂) =>
        match v with
        | .null =>
          .error (.err "TypeError: Cannot read properties of null".toList, st₂)
        | .undefined =>
          .error (.err "TypeError: Cannot read properties of undefined".toList, st₂)
        | _ => .ok (getMember v (String.mk (valToStr iv)), st₂)
  | .call callee args, env, st =>
    match evalNode subEval callee env st with
    | .error f => .error f
    | .ok (fv, st₁) =>
      match evalList subEval args env st₁ with
      | .error f => .error f
      | .ok (argv, st₂) =>
        match fv with
        | .native nf => applyNative nf argv st₂
        | _ => .error (.err "Attempt to call non-function".toList, st₂)
  | .unary op e, env, st =>
    match evalNode subEval e env st with
    | .error f => .error f
    | .ok (v, st') =>
      match evalUnaryOp op v with
      | .ok w => .ok (w, st')
      | .error m => .error (.err m, st')
  | .binary op l r, env, st =>
    match evalNode subEval l env st with
    | .error f => .error f
    | .ok (lv, st₁) =>
      match evalNode subEval r env st₁ with
      | .error f => .error f
      | .ok (rv, st₂) =>
        match evalBinaryOp op lv rv with
        | .ok w => .ok (w, st₂)
        | .error m => .error (.err m, st₂)
  | .exprStmt e, env, st => evalNode subEval e env st
  | .breakStmt, _, st => .error (.brk, st)
  | .continueStmt, _, st => .error (.cont, st)
  | .forIn id iterable body, env, st =>
    match evalNode subEval iterable env st with
    | .error f => .error f
    | .ok (v, st₁) =>
      match v with
      | .arr _ elems =>
        (match forIter subEval id elems body env st₁ with
         | .ok st₂ => .ok (.undefined, st₂)
         | .error f => .error f)
      | _ => .ok (.undefined, st₁)
termination_by n _ _ => (sizeOf n, 0)
decreasing_by all_goals simp_wf <;> (try simp) <;> omega

def evalList (subEval : List Char → Option (List Char)) :
    List Node → Env → EvalSt → Except (Sig × EvalSt) (List Val × EvalSt)
  | [], _, st => .ok ([], st)
  | n :: ns, env, st =>
    match evalNode subEval n env st with
    | .error f => .error f
    | .ok (v, st') =>
      match evalList subEval ns env st' with
      | .error f => .error f
      | .ok (vs, st'') => .ok (v :: vs, st'')
termination_by ns _ _ => (sizeOf ns, 0)
decreasing_by all_goals simp_wf <;> (try simp) <;> omega

def evalProps (subEval : List Char → Option (List Char)) :
    List (String × Node) → Env → EvalSt →
    Except (Sig × EvalSt) (List (String × Val) × EvalSt)
  | [], _, st => .ok ([], st)
  | (k, n) :: ps, env, st =>
    match evalNode subEval n env st with
    | .error f => .error f
    | .ok (v, st') =>
      match evalProps subEval ps env st' with
      | .error f => .error f
      | .ok (fields, st'') => .ok (upsert fields k v, st'')
termination_by ps _ _ => (sizeOf ps, 0)
decreasing_by all_goals simp_wf <;> (try simp) <;> omega

def evalStmts (subEval : List Char → Option (List Char)) :
    List Node → Env → EvalSt → Except (Sig × EvalSt) EvalSt
  | [], _, st => .ok st
  | s :: ss, env, st =>
    match evalNode subEval s env st with
    | .error f => .error f
    | .ok (_, st') => evalStmts subEval ss env st'
termination_by ss _ _ => (sizeOf ss, 0)
decreasing_by all_goals simp_wf <;> (try simp) <;> omega

def forIter (subEval : List Char → Option (List Char)) (id : String) :
    List Val → List Node → Env → EvalSt → Except (Sig × EvalSt) EvalSt
  | [], _, _, st => .ok st
  | v :: vs, body, env, st =>
    match evalStmts subEval body (env ++ [[(id, v)]]) st with
    | .ok st' => forIter subEval id vs body env st'
    | .error (.brk, st') => .ok st'
    | .error (.cont, st') => forIter subEval id vs body env st'
    | .error f => .error f
termination_by elems body _ _ => (sizeOf body, elems.length + 1)
decreasing_by all_goals simp_wf <;> (try simp) <;> omega

end

/-! ## The fallback interpreter of `src/interpreter.js`

This is the `interpret` the worker actually calls: a token-level
executor with its own tokenizer, handling only assignments of the form
`name = expr` and call statements `name(...)`; every other token is
skipped one at a time.  It never parses function definitions, never
touches `state.eventHandlers`, and reports `"OK"` unless `exit` was
thrown.  All functions carry a fuel argument (a modelling device keeping
the definitions structurally recursive; the amounts supplied below
exceed every possible number of steps for the inputs evaluated). -/

namespace SimpleInterp

/-- Keywords of `src/interpreter.js` (line 63) — a shorter list than the
main tokenizer's. -/
def keywords : List (List Char) :=
  ["if", "else", "elseif", "end", "while", "for", "function", "return",
   "break", "continue", "true", "false", "null", "undefined", "and", "or",
   "not"].map String.toList

/-- The operator/punctuation characters this tokenizer recognizes
(line 70); anything else that reaches the operator branch is skipped. -/
def opChars : List Char := "=!<>+-*/%()[]{},.;:".toList

/-- Characters that can start a two-character compound with `=`
(line 74). -/
def compoundable : List Char := "=!<>+-*/%".toList

/-- Character loop for one line of the fallback tokenizer
(`src/interpreter.js` lines 11-84): like the main tokenizer but with no
SEMICOLON or NEWLINE tokens, compounds formed only with a trailing `=`,
and unknown characters silently skipped (lines 82-83). -/
def lineToks : Nat → Nat → List Char → List Token
  | 0, _, _ => []
  | fuel + 1, n, cs =>
    match cs with
    | [] => []
    | c :: cs =>
      if isSpaceCh c then lineToks fuel n cs
      else if c = '#' then []
      else if c = '"' ∨ c = '\'' then
        let p := Tokenizer.scanStr c cs
        ⟨.STRING, .str p.1, n⟩ :: lineToks fuel n p.2
      else if isDigitCh c then
        ⟨.NUMBER, .num (parseFloatQ (c :: cs.takeWhile isNumCh)), n⟩ ::
          lineToks fuel n (cs.dropWhile isNumCh)
      else if isIdentStartCh c then
        let id := c :: cs.takeWhile isWordCh
        ⟨(if keywords.contains id then .KEYWORD else .IDENTIFIER), .str id, n⟩ ::
          lineToks fuel n (cs.dropWhile isWordCh)
      else if opChars.contains c then
        match cs with
        | '=' :: cs' =>
          if compoundable.contains c then
            ⟨.OPERATOR, .str [c, '='], n⟩ :: lineToks fuel n cs'
          else ⟨.OPERATOR, .str [c], n⟩ :: lineToks fuel n ('=' :: cs')
        | _ => ⟨.OPERATOR, .str [c], n⟩ :: lineToks fuel n cs
      else lineToks fuel n cs

def tokLines : Nat → List (List Char) → List Token
  | _, [] => []
  | n, l :: ls => lineToks (l.length + 1) n l ++ tokLines (n + 1) ls

/-- The `tokenize` of `src/interpreter.js`. -/
def tokenize (code : List Char) : List Token :=
  tokLines 0 (Tokenizer.splitLines code)

/-- Interpreter state threaded through the fallback interpreter and the
worker: the `variables` object, the `shouldExit` flag set by `exit()`,
the event-handler table created by `getInitialState` (a `true` entry
means a registered handler; `src/interpreter.js` never reads or writes
this table), the custom-function name list, and the host-effect state
shared with the evaluator model. -/
structure SState where
  vars : Frame
  shouldExit : Bool
  eventHandlers : List (String × Bool)
  customFunctionNames : List String
  output : List Char
  limiter : ResourceLimiter
  cpuTimeMs : Q
  memoryUsageMB : Q

/-- Property read `variables[name]` on the plain variables object:
own property, inherited `Object.prototype` member, or `undefined`. -/
def objRead (f : Frame) (name : String) : Val :=
  match f.lookup name with
  | some v => v
  | none =>
    if objectProtoNames.contains name then protoVal "Object" name
    else .undefined

def trimCh (cs : List Char) : List Char :=
  (cs.dropWhile isSpaceCh).reverse.dropWhile isSpaceCh |>.reverse

/-- The string-interpolation of `src/interpreter.js` (lines 98-100):
`str.replace(/\$\{([^}]+)\}/g, (m, v) => variables[v.trim()] || m)` — a
global replace with a callback, substituting each match with the
variable's value (stringified by `replace`) when it is truthy and the
original text otherwise. -/
def replaceHoles (vars : Frame) : List Char → List Char
  | [] => []
  | c :: cs =>
    if c = '$' then
      match cs with
      | '{' :: rest =>
        (match hb : braceSplit rest with
         | some (e, after) =>
           (let v := objRead vars (String.mk (trimCh e))
            if v.truthy then valToStr v else holeText e) ++ replaceHoles vars after
         | none => c :: replaceHoles vars ('{' :: rest))
      | [] => [c]
      | d :: cs' => c :: replaceHoles vars (d :: cs')
    else c :: replaceHoles vars cs
termination_by cs => cs.length
decreasing_by
  all_goals simp
  all_goals first
    | omega
    | (have h9 := braceSplit_lt hb; omega)

/-- Host-function application for the fallback interpreter's state.
`log` and `exit` follow `src/utils.js` (`exit` sets `shouldExit` and
throws the `"exit"` error the interpreter catches); `stub` stands for the
remaining built-ins (math, drawing, timing): they increment the limiter
and return `undefined` here — their values and canvas effects are not
modelled, and no settled claim calls them. -/
def applyNativeS (f : NativeFn) (args : List Val) (st : SState) :
    Except (List Char × SState) (Val × SState) :=
  match f with
  | .log =>
    match st.limiter.incrementCommand st.cpuTimeMs st.memoryUsageMB with
    | .error e => .error (limitErrMsg e, st)
    | .ok lim' =>
      let msg := joinSpace (args.map renderArg)
      .ok (.undefined,
        { st with limiter := lim', output := st.output ++ msg ++ ['\n'] })
  | .exit => .error ("exit".toList, { st with shouldExit := true })
  | .stub _ =>
    match st.limiter.incrementCommand st.cpuTimeMs st.memoryUsageMB with
    | .error e => .error (limitErrMsg e, st)
    | .ok lim' => .ok (.undefined, { st with limiter := lim' })
  | .hostProto _ _ =>
    .error ("host prototype function outside modelled fragment".toList, st)

end SimpleInterp

namespace SimpleInterp

/-- Test `tokens[i].value === s` (false when `i` is out of range). -/
def tokValIs (tokens : List Token) (i : Nat) (s : List Char) : Bool :=
  match tokens.get? i with
  | some t => t.value = .str s
  | none => false

mutual

/-- `evaluateExpression` (`src/interpreter.js` lines 90-155): one token
lookahead; strings are interpolated against the variables object,
numbers and keyword literals map to values, an identifier followed by
`(` is a call (arguments parsed by `parseArgs`, the callee looked up in
the variables object and invoked only when it is a function — otherwise
the result is `undefined` with no error), a bare identifier reads the
variable, and anything else is `undefined` advancing one token. -/
def evaluateExpression : Nat → List Token → Nat → SState →
    Except (List Char × SState) (Val × Nat × SState)
  | 0, _, _, st => .error ("model fuel exhausted".toList, st)
  | fuel + 1, tokens, start, st =>
    match tokens.get? start with
    | none => .ok (.undefined, start, st)
    | some tok =>
      match tok.kind, tok.value with
      | .STRING, .str s => .ok (.str (replaceHoles st.vars s), start + 1, st)
      | .NUMBER, .num q => .ok (.num (.fin q), start + 1, st)
      | .KEYWORD, .str s =>
        if s = "true".toList then .ok (.boolean true, start + 1, st)
        else if s = "false".toList then .ok (.boolean false, start + 1, st)
        else if s = "null".toList then .ok (.null, start + 1, st)
        else if s = "undefined".toList then .ok (.undefined, start + 1, st)
        else .ok (.undefined, start + 1, st)
      | .IDENTIFIER, .str s =>
        let name := String.mk s
        if tokValIs tokens (start + 1) ['('] then
          match parseArgs fuel tokens (start + 2) st [] with
          | .error e => .error e
          | .ok (args, i, st') =>
            let i' := if i < tokens.length then i + 1 else i
            match objRead st'.vars name with
            | .native nf =>
              (match applyNativeS nf args st' with
               | .error e => .error e
               | .ok (v, st'') => .ok (v, i', st''))
            | _ => .ok (.undefined, i', st')
        else .ok (objRead st.vars name, start + 1, st)
      | _, _ => .ok (.undefined, start + 1, st)

/-- The argument loop of the call branch (lines 122-131): until `)` or
the end of the tokens, skipping commas, evaluating argument
expressions. -/
def parseArgs : Nat → List Token → Nat → SState → List Val →
    Except (List Char × SState) (List Val × Nat × SState)
  | 0, _, _, st, _ => .error ("model fuel exhausted".toList, st)
  | fuel + 1, tokens, i, st, acc =>
    match tokens.get? i with
    | none => .ok (acc.reverse, i, st)
    | some t =>
      if t.value = .str [')'] then .ok (acc.reverse, i, st)
      else if t.value = .str [','] then parseArgs fuel tokens (i + 1) st acc
      else
        match evaluateExpression fuel tokens i st with
        | .error e => .error e
        | .ok (v, i', st') => parseArgs fuel tokens i' st' (v :: acc)

end

/-- `executeStatement` (`src/interpreter.js` lines 157-177): assignments
`name = expr` (stored as an own property of the variables object), call
statements `name(...)`, and otherwise advance one token.  Function
definitions, control flow, and every other construct fall into the
one-token skip. -/
def executeStatement (fuel : Nat) (tokens : List Token) (start : Nat)
    (st : SState) : Except (List Char × SState) (Nat × SState) :=
  match tokens.get? start with
  | none => .ok (start, st)
  | some tok =>
    match tok.kind, tok.value with
    | .IDENTIFIER, .str s =>
      if tokValIs tokens (start + 1) ['='] then
        match evaluateExpression fuel tokens (start + 2) st with
        | .error e => .error e
        | .ok (v, i, st') =>
          .ok (i, { st' with vars := upsert st'.vars (String.mk s) v })
      else if tokValIs tokens (start + 1) ['('] then
        match evaluateExpression fuel tokens start st with
        | .error e => .error e
        | .ok (_, i, st') => .ok (i, st')
      else .ok (start + 1, st)
    | _, _ => .ok (start + 1, st)

/-- The statement loop of `interpret` (`src/interpreter.js` lines
277-279). -/
def interpretLoop : Nat → List Token → Nat → SState →
    Except (List Char × SState) SState
  | 0, _, _, st => .error ("model fuel exhausted".toList, st)
  | fuel + 1, tokens, i, st =>
    if i < tokens.length then
      match executeStatement fuel tokens i st with
      | .error e => .error e
      | .ok (i', st') => interpretLoop fuel tokens i' st'
    else .ok st

/-- `interpret` (`src/interpreter.js` lines 272-288): tokenize, run the
statement loop, return `"OK"`; the `"exit"` error is caught and turns
into an `undefined` result (`none`), any other error propagates. -/
def interpret (fuel : Nat) (code : List Char) (st : SState) :
    Except (List Char × SState) (Option String × SState) :=
  match interpretLoop fuel (tokenize code) 0 st with
  | .ok st' => .ok (some "OK", st')
  | .error (msg, st') =>
    if msg = "exit".toList then .ok (none, st') else .error (msg, st')

end SimpleInterp

/-! ## The worker's run branch (`src/interpreter-worker.js` lines 84-107)

On a `run` message the worker builds the initial state with
`getInitialState` from `src/utils.js` (merging the default limits
`maxCommands: Infinity, maxMemoryMB: 100, maxCpuTimeMs: 60000`), runs
`interpret` from `src/interpreter.js` — not the imported
`parse`/`evalNode` pipeline — and then decides the session's fate: an
error posts `error`; `result === "exit"` or `state.shouldExit` posts
`done{result: 'exit'}` and stops; otherwise, if some entry of
`state.eventHandlers` is non-null the worker stays alive awaiting
events; otherwise it posts `done{result}` and stops. -/

namespace Worker

def handlerNames : List String :=
  ["onKeyDown", "onKeyUp", "onMouseMove", "onMouseDown", "onMouseUp",
   "onMouseClick"]

/-- `state.eventHandlers` as `getInitialState` creates it: every
recognized handler name mapped to null (`false` = no handler). -/
def initialHandlers : List (String × Bool) := handlerNames.map (fun h => (h, false))

def defaultLimits : Limits :=
  mkLimits (some (.inf false)) (some (.fin ⟨100, 1⟩)) (some (.fin ⟨60000, 1⟩))

/-- The double closest to π, the value of `math.pi`. -/
def mathPi : Val := .num (.fin ⟨884279719003555, 281474976710656⟩)

/-- The `variables` object of `getInitialState` (`src/utils.js` lines
143-327): the built-in namespaces and functions (no `fs`/`shell`: the
worker passes no `enableFs`/`enableShell`), with reference identifiers
for the object values. -/
def initVars : Frame :=
  [("console", .object 0
      [("log", .native .log), ("warn", .native (.stub "console.warn")),
       ("error", .native (.stub "console.error")),
       ("clear", .native (.stub "console.clear"))]),
   ("math", .object 1
      [("random", .native (.stub "math.random")),
       ("round", .native (.stub "math.round")),
       ("floor", .native (.stub "math.floor")),
       ("ceil", .native (.stub "math.ceil")),
       ("abs", .native (.stub "math.abs")),
       ("sqrt", .native (.stub "math.sqrt")),
       ("min", .native (.stub "math.min")),
       ("max", .native (.stub "math.max")),
       ("cos", .native (.stub "math.cos")),
       ("sin", .native (.stub "math.sin")),
       ("pi", mathPi)]),
   ("wait", .native (.stub "wait")),
   ("time", .native (.stub "time")),
   ("deltaTime", .native (.stub "deltaTime")),
   ("fps", .native (.stub "fps")),
   ("uptime", .native (.stub "uptime")),
   ("resetTimer", .native (.stub "resetTimer")),
   ("exit", .native .exit),
   ("pixel", .native (.stub "pixel")),
   ("rect", .native (.stub "rect")),
   ("circle", .native (.stub "circle")),
   ("sprite", .native (.stub "sprite")),
   ("line", .native (.stub "line")),
   ("clear", .native (.stub "clear")),
   ("config", .object 2
      [("editor", .str "DefaultEditor".toList),
       ("autosave", .boolean false)])]

/-- The worker's session state after `getInitialState` (ambient samples
zero at the start of the run). -/
def initState : SimpleInterp.SState :=
  { vars := initVars
    shouldExit := false
    eventHandlers := initialHandlers
    customFunctionNames := []
    output := []
    limiter := .fresh defaultLimits
    cpuTimeMs := ⟨0, 1⟩
    memoryUsageMB := ⟨0, 1⟩ }

/-- Observable worker outcome of a run: `errored` (an `error` message was
posted), `doneExit` (`done{result: 'exit'}`), `awaitingEvents` (no
terminal message; the worker keeps listening for injected events), or
`done{result}`. -/
inductive WOutcome where
  | errored (msg : List Char)
  | doneExit
  | awaitingEvents
  | done (result : Option String)
deriving DecidableEq, Repr

/-- Lines 86-107 of `src/interpreter-worker.js`: the decision after
`interpret` returns. -/
def workerDecide
    (res : Except (List Char × SimpleInterp.SState) (Option String × SimpleInterp.SState)) :
    WOutcome :=
  match res with
  | .error (msg, _) => .errored msg
  | .ok (result, st) =>
    if result = some "exit" ∨ st.shouldExit then .doneExit
    else if st.eventHandlers.any (fun h => h.2) then .awaitingEvents
    else .done result

/-- One full `run` message: initial state, fallback `interpret`, worker
decision.  The fuel bounds the interpreter's steps; `1000` far exceeds
what the evaluated scripts need. -/
def run (code : List Char) : WOutcome :=
  workerDecide (SimpleInterp.interpret 1000 code initState)

end Worker

/-- A fresh evaluation state: no output, a fresh limiter with the default
limits of the `ResourceLimiter` constructor, zero ambient samples. -/
def stInit : EvalSt :=
  { output := [], limiter := .fresh (mkLimits none none none),
    cpuTimeMs := ⟨0, 1⟩, memoryUsageMB := ⟨0, 1⟩, nextRef := 0,
    shouldExit := false }

/-! # Theorems for the claims -/

/-- C2 (counterexample): evaluating `false and log("x")` emits the output
of `log("x")` — the right operand of `and` is evaluated, side effects and
all, even though the left operand is falsy and already decides the
result.  (`evalNode` evaluates both operands before the operator switch.)
The spec's short-circuit claim is therefore false on the code. -/
theorem and_rhs_side_effect_occurs :
    evalNode (fun _ => none)
      (.binary "and" (.lit (.boolean false))
        (.call (.variab "log") [.lit (.str "x".toList)]))
      [[("log", .native .log)]] stInit
      = .ok (.boolean false,
          { stInit with output := "x\n".toList,
                        limiter := ⟨mkLimits none none none, 1⟩ })
    ∧ (("x\n".toList : List Char) ≠ ([] : List Char)) := by
  constructor
  · simp [evalNode, evalList, evalBinaryOp, interpolate, scanM, getVar,
      lookupFrames, frameHas, frameGet, applyNative,
      ResourceLimiter.incrementCommand, ResourceLimiter.checkLimits, mkLimits,
      resolveLimit, JSNum.leb, JSNum.ltb, JSNum.truthy, qLt, qIsZero, Q.ofNat,
      joinSpace, renderArg, Val.truthy, stInit, ResourceLimiter.fresh,
      objectProtoNames, String.toList]
  · decide

/-- C2 (amended): `and`/`or` always evaluate both operands — the final
state is the one left by the right operand's evaluation — and the result
is one of the operand values selected by truthiness (`l && r` / `l || r`
over the two already-computed values), never a coerced boolean. -/
theorem and_or_evaluate_both_operands (subEval : List Char → Option (List Char))
    (l r : Node) (env : Env) (st st₁ st₂ : EvalSt) (vl vr : Val)
    (hl : evalNode subEval l env st = .ok (vl, st₁))
    (hr : evalNode subEval r env st₁ = .ok (vr, st₂)) :
    evalNode subEval (.binary "and" l r) env st
      = .ok ((if vl.truthy then vr else vl), st₂)
    ∧ evalNode subEval (.binary "or" l r) env st
      = .ok ((if vl.truthy then vl else vr), st₂) := by
  constructor <;> simp [evalNode, hl, hr, evalBinaryOp]

/-- C2 (witness): the amended statement at the counterexample's input. -/
theorem and_or_evaluate_both_operands_witness :
    evalNode (fun _ => none)
      (.binary "and" (.lit (.boolean false))
        (.call (.variab "log") [.lit (.str "x".toList)]))
      [[("log", .native .log)]] stInit
      = .ok ((if (Val.boolean false).truthy then Val.undefined else .boolean false),
          { stInit with output := "x\n".toList,
                        limiter := ⟨mkLimits none none none, 1⟩ }) :=
  (and_or_evaluate_both_operands (fun _ => none)
    (.lit (.boolean false)) (.call (.variab "log") [.lit (.str "x".toList)])
    [[("log", .native .log)]] stInit stInit
    { stInit with output := "x\n".toList,
                  limiter := ⟨mkLimits none none none, 1⟩ }
    (.boolean false) .undefined
    (by simp [evalNode])
    (by simp [evalNode, evalList, interpolate, scanM, getVar, lookupFrames,
      frameHas, frameGet, applyNative, ResourceLimiter.incrementCommand,
      ResourceLimiter.checkLimits, mkLimits, resolveLimit, JSNum.leb,
      JSNum.ltb, JSNum.truthy, qLt, qIsZero, Q.ofNat, joinSpace, renderArg,
      stInit, ResourceLimiter.fresh, objectProtoNames, String.toList])).1

/-- C9: the `Get` case's guard `if (!obj) throw ...` rejects every falsy
base value — not only `null`/`undefined` but also `0`, the empty string,
`false` and `NaN` — raising the runtime error
`Cannot access property of null/undefined`. -/
theorem get_rejects_falsy_base (subEval : List Char → Option (List Char))
    (o : Node) (p : String) (env : Env) (st st' : EvalSt) (v : Val)
    (ho : evalNode subEval o env st = .ok (v, st'))
    (hfalsy : v.truthy = false) :
    evalNode subEval (.get o p) env st
      = .error (.err "Cannot access property of null/undefined".toList, st') := by
  simp [evalNode, ho, hfalsy]

/-- C9 (witness): property access on the number `0` fails. -/
theorem get_rejects_falsy_base_witness :
    evalNode (fun _ => none) (.get (.lit (.num ⟨0, 1⟩)) "x") [[]] stInit
      = .error (.err "Cannot access property of null/undefined".toList, stInit) :=
  get_rejects_falsy_base (fun _ => none) (.lit (.num ⟨0, 1⟩)) "x" [[]]
    stInit stInit (.num (.fin ⟨0, 1⟩))
    (by simp [evalNode]) (by decide)

/-- C10: a `for (x in e)` loop whose iterable evaluates to a non-array
value runs its body zero times and completes without error: the result
is `undefined` and the final state is exactly the state after evaluating
the iterable expression. -/
theorem for_non_array_skips_body (subEval : List Char → Option (List Char))
    (x : String) (e : Node) (body : List Node) (env : Env)
    (st st₁ : EvalSt) (v : Val)
    (he : evalNode subEval e env st = .ok (v, st₁))
    (hna : v.kind ≠ ValKind.array) :
    evalNode subEval (.forIn x e body) env st = .ok (.undefined, st₁) := by
  cases v <;> simp_all [evalNode, Val.kind]

/-- C10 (witness): iterating a number with a side-effecting body leaves
the output empty — the body never ran. -/
theorem for_non_array_skips_body_witness :
    evalNode (fun _ => none)
      (.forIn "x" (.lit (.num ⟨5, 1⟩))
        [.exprStmt (.call (.variab "log") [.lit (.str "never".toList)])])
      [[("log", .native .log)]] stInit = .ok (.undefined, stInit) :=
  for_non_array_skips_body (fun _ => none) "x" (.lit (.num ⟨5, 1⟩))
    [.exprStmt (.call (.variab "log") [.lit (.str "never".toList)])]
    [[("log", .native .log)]] stInit stInit (.num (.fin ⟨5, 1⟩))
    (by simp [evalNode]) (by decide)

theorem lookupFrames_unbound (frames : List Frame) (name : String)
    (hunbound : ∀ f ∈ frames, f.lookup name = none)
    (hproto : objectProtoNames.contains name = false) :
    lookupFrames frames name = .undefined := by
  induction frames with
  | nil => rfl
  | cons f rest ih =>
    have hf : f.lookup name = none := hunbound f (by simp)
    have hp : ¬ name ∈ objectProtoNames := by simpa using hproto
    simp [lookupFrames, frameHas, hf, hp]
    exact ih (fun g hg => hunbound g (by simp [hg]))

/-- C7 (counterexample): looking up a name bound in no frame does not
always yield `undefined`: scope frames are plain host objects, so the
membership test `name in env[i]` of `getVar` also finds the inherited
members of `Object.prototype`.  Evaluating the variable `toString` in a
single empty global frame yields the inherited host function, not
`undefined`. -/
theorem unbound_toString_not_undefined :
    evalNode (fun _ => none) (.variab "toString") [[]] stInit
      = .ok (.native (.hostProto "Object" "toString"), stInit)
    ∧ Val.native (.hostProto "Object" "toString") ≠ Val.undefined := by
  constructor
  · simp [evalNode, getVar, lookupFrames, frameHas, frameGet, protoVal,
      objectProtoNames]
  · simp

/-- C7 (amended): a name bound in no frame evaluates to `undefined` (and
never raises) provided it is not one of the `Object.prototype` member
names that every plain scope object inherits (`toString`, `valueOf`,
`hasOwnProperty`, `constructor`, ...); for those names lookup finds the
inherited host member instead. -/
theorem variable_unbound_yields_undefined
    (subEval : List Char → Option (List Char)) (name : String) (env : Env)
    (st : EvalSt)
    (hunbound : ∀ f ∈ env, f.lookup name = none)
    (hproto : objectProtoNames.contains name = false) :
    evalNode subEval (.variab name) env st = .ok (.undefined, st) := by
  simp [evalNode, getVar]
  exact lookupFrames_unbound env.reverse name
    (fun f hf => hunbound f (List.mem_reverse.mp hf)) hproto

/-- C7 (witness): an unbound ordinary name in a one-frame environment. -/
theorem variable_unbound_yields_undefined_witness :
    evalNode (fun _ => none) (.variab "foo") [[]] stInit = .ok (.undefined, stInit) :=
  variable_unbound_yields_undefined (fun _ => none) "foo" [[]] stInit
    (by simp) (by decide)

theorem leb_fin_fin (a b : Q) : JSNum.leb (.fin a) (.fin b) = ! qLt b a := by
  by_cases h : qLt b a = true <;> simp [JSNum.leb, JSNum.ltb, h]

theorem cmdLimits_eq (m : Nat) (hm : 1 ≤ m) :
    mkLimits (some (.fin ⟨(m : ℤ), 1⟩)) none none
      = ⟨.fin ⟨(m : ℤ), 1⟩, .fin ⟨50, 1⟩, .fin ⟨5000, 1⟩⟩ := by
  have h0 : ¬ ((m : ℤ) = 0) := by omega
  simp [mkLimits, resolveLimit, JSNum.truthy, qIsZero, h0]

theorem runCalls_ok (m : Nat) (cpu mem : Q)
    (hcpu : qLt cpu ⟨5000, 1⟩ = true) (hmem : qLt mem ⟨50, 1⟩ = true) :
    ∀ (k c : Nat), c + k < m →
      runCalls k cpu mem ⟨⟨.fin ⟨(m : ℤ), 1⟩, .fin ⟨50, 1⟩, .fin ⟨5000, 1⟩⟩, c⟩
        = .ok ⟨⟨.fin ⟨(m : ℤ), 1⟩, .fin ⟨50, 1⟩, .fin ⟨5000, 1⟩⟩, c + k⟩ := by
  intro k
  induction k with
  | zero => intro c h; simp [runCalls]
  | succ k ih =>
    intro c h
    have hstep : (⟨⟨.fin ⟨(m : ℤ), 1⟩, .fin ⟨50, 1⟩, .fin ⟨5000, 1⟩⟩, c⟩ :
        ResourceLimiter).incrementCommand cpu mem
        = .ok ⟨⟨.fin ⟨(m : ℤ), 1⟩, .fin ⟨50, 1⟩, .fin ⟨5000, 1⟩⟩, c + 1⟩ := by
      have hq : qLt (Q.ofNat (c + 1)) ⟨(m : ℤ), 1⟩ = true := by
        simp [qLt, Q.ofNat]; omega
      simp [ResourceLimiter.incrementCommand, ResourceLimiter.checkLimits,
        leb_fin_fin, hcpu, hmem, hq]
    have h' : (c + 1) + k < m := by omega
    calc runCalls (k + 1) cpu mem ⟨_, c⟩
        = runCalls k cpu mem ⟨⟨.fin ⟨(m : ℤ), 1⟩, .fin ⟨50, 1⟩, .fin ⟨5000, 1⟩⟩, c + 1⟩ := by
          simp [runCalls, hstep]
      _ = .ok ⟨⟨.fin ⟨(m : ℤ), 1⟩, .fin ⟨50, 1⟩, .fin ⟨5000, 1⟩⟩, (c + 1) + k⟩ := ih (c + 1) h'
      _ = .ok ⟨⟨.fin ⟨(m : ℤ), 1⟩, .fin ⟨50, 1⟩, .fin ⟨5000, 1⟩⟩, c + (k + 1)⟩ := by
          have hck : (c + 1) + k = c + (k + 1) := by omega
          rw [hck]

theorem runCalls_err (m : Nat) (cpu mem : Q)
    (hcpu : qLt cpu ⟨5000, 1⟩ = true) (hmem : qLt mem ⟨50, 1⟩ = true) :
    ∀ (k c : Nat), c < m → m ≤ c + k →
      runCalls k cpu mem ⟨⟨.fin ⟨(m : ℤ), 1⟩, .fin ⟨50, 1⟩, .fin ⟨5000, 1⟩⟩, c⟩
        = .error (.commands (.fin ⟨(m : ℤ), 1⟩)) := by
  intro k
  induction k with
  | zero => intro c h1 h2; omega
  | succ k ih =>
    intro c h1 h2
    by_cases hlast : m ≤ c + 1
    · have hstep : (⟨⟨.fin ⟨(m : ℤ), 1⟩, .fin ⟨50, 1⟩, .fin ⟨5000, 1⟩⟩, c⟩ :
          ResourceLimiter).incrementCommand cpu mem
          = .error (.commands (.fin ⟨(m : ℤ), 1⟩)) := by
        have hq : qLt (Q.ofNat (c + 1)) ⟨(m : ℤ), 1⟩ = false := by
          simp [qLt, Q.ofNat]; omega
        simp [ResourceLimiter.incrementCommand, ResourceLimiter.checkLimits,
          leb_fin_fin, hcpu, hmem, hq]
      simp [runCalls, hstep]
    · have hstep : (⟨⟨.fin ⟨(m : ℤ), 1⟩, .fin ⟨50, 1⟩, .fin ⟨5000, 1⟩⟩, c⟩ :
          ResourceLimiter).incrementCommand cpu mem
          = .ok ⟨⟨.fin ⟨(m : ℤ), 1⟩, .fin ⟨50, 1⟩, .fin ⟨5000, 1⟩⟩, c + 1⟩ := by
        have hq : qLt (Q.ofNat (c + 1)) ⟨(m : ℤ), 1⟩ = true := by
          simp [qLt, Q.ofNat]; omega
        simp [ResourceLimiter.incrementCommand, ResourceLimiter.checkLimits,
          leb_fin_fin, hcpu, hmem, hq]
      simp [runCalls, hstep]
      exact ih (c + 1) (by omega) (by omega)

instance {ε α : Type} [DecidableEq ε] [DecidableEq α] : DecidableEq (Except ε α)
  | .error e, .error f =>
    if h : e = f then .isTrue (by rw [h]) else .isFalse (fun hc => h (by injection hc))
  | .error _, .ok _ => .isFalse (fun hc => Except.noConfusion hc)
  | .ok _, .error _ => .isFalse (fun hc => Except.noConfusion hc)
  | .ok a, .ok b =>
    if h : a = b then .isTrue (by rw [h]) else .isFalse (fun hc => h (by injection hc))

/-- C1 (counterexample): with `maxCommands = 1`, already the first
primitive call raises the command-limit error — the claim's "exactly
`maxCommands` primitive calls complete without a resource error" fails at
`maxCommands = 1`: `incrementCommand` increments the counter *before*
`checkLimits` compares it with `>=`, so the call that reaches the limit
itself fails. -/
theorem first_call_hits_limit_one :
    runCalls 1 ⟨0, 1⟩ ⟨0, 1⟩
      (ResourceLimiter.fresh (mkLimits (some (.fin ⟨1, 1⟩)) none none))
      = .error (.commands (.fin ⟨1, 1⟩)) := by decide

/-- C1 (amended): from a fresh limiter with command limit `m ≥ 1` (and
ambient time/memory samples below their limits), any `k < m` primitive
calls all succeed, leaving `getUsage().commands = k` — the exact number
of `incrementCommand` steps performed; the `m`-th call raises the
command-limit `ResourceLimitError` (one call earlier than the claim's
`maxCommands + 1`). -/
theorem command_limit_off_by_one (m k : Nat) (cpu mem tot : Q)
    (hm : 1 ≤ m) (hk : k < m)
    (hcpu : qLt cpu ⟨5000, 1⟩ = true) (hmem : qLt mem ⟨50, 1⟩ = true) :
    runCalls k cpu mem (ResourceLimiter.fresh (mkLimits (some (.fin ⟨(m : ℤ), 1⟩)) none none))
      = .ok ⟨mkLimits (some (.fin ⟨(m : ℤ), 1⟩)) none none, k⟩
    ∧ (ResourceLimiter.getUsage
        ⟨mkLimits (some (.fin ⟨(m : ℤ), 1⟩)) none none, k⟩ cpu mem tot).commands = k
    ∧ runCalls m cpu mem (ResourceLimiter.fresh (mkLimits (some (.fin ⟨(m : ℤ), 1⟩)) none none))
      = .error (.commands (.fin ⟨(m : ℤ), 1⟩)) := by
  rw [cmdLimits_eq m hm]
  refine ⟨?_, rfl, ?_⟩
  · have := runCalls_ok m cpu mem hcpu hmem k 0 (by omega)
    simpa [ResourceLimiter.fresh] using this
  · have := runCalls_err m cpu mem hcpu hmem m 0 (by omega) (by omega)
    simpa [ResourceLimiter.fresh] using this

/-- C1 (witness): the amended statement at `m = 3`, `k = 2`. -/
theorem command_limit_off_by_one_witness :
    runCalls 2 ⟨0, 1⟩ ⟨0, 1⟩
      (ResourceLimiter.fresh (mkLimits (some (.fin ⟨(3 : ℤ), 1⟩)) none none))
      = .ok ⟨mkLimits (some (.fin ⟨(3 : ℤ), 1⟩)) none none, 2⟩
    ∧ (ResourceLimiter.getUsage
        ⟨mkLimits (some (.fin ⟨(3 : ℤ), 1⟩)) none none, 2⟩ ⟨0, 1⟩ ⟨0, 1⟩ ⟨0, 1⟩).commands = 2
    ∧ runCalls 3 ⟨0, 1⟩ ⟨0, 1⟩
      (ResourceLimiter.fresh (mkLimits (some (.fin ⟨(3 : ℤ), 1⟩)) none none))
      = .error (.commands (.fin ⟨(3 : ℤ), 1⟩)) :=
  command_limit_off_by_one 3 2 ⟨0, 1⟩ ⟨0, 1⟩ ⟨0, 1⟩
    (by decide) (by decide) (by decide) (by decide)

/-- C5 (counterexample): unknown characters are not skipped by
`src/tokenizer.js` — there is no skip branch; an unrecognized character
falls through to the operator branch and is emitted as an OPERATOR
token.  Tokenizing `a§b` yields four tokens including `OPERATOR "§"`,
which differs from tokenizing `ab` (where removal of the unknown
character also merges the two identifiers). -/
theorem unknown_char_emits_operator_token :
    Tokenizer.tokenize "a§b".toList
      = [⟨.IDENTIFIER, .str ['a'], 0⟩, ⟨.OPERATOR, .str ['§'], 0⟩,
         ⟨.IDENTIFIER, .str ['b'], 0⟩, ⟨.NEWLINE, .str ['\n'], 0⟩]
    ∧ Tokenizer.tokenize "ab".toList
      = [⟨.IDENTIFIER, .str ['a', 'b'], 0⟩, ⟨.NEWLINE, .str ['\n'], 0⟩]
    ∧ Tokenizer.tokenize "a§b".toList ≠ Tokenizer.tokenize "ab".toList := by
  have h1 : Tokenizer.tokenize "a§b".toList
      = [⟨.IDENTIFIER, .str ['a'], 0⟩, ⟨.OPERATOR, .str ['§'], 0⟩,
         ⟨.IDENTIFIER, .str ['b'], 0⟩, ⟨.NEWLINE, .str ['\n'], 0⟩] := by
    simp [Tokenizer.tokenize, Tokenizer.tokenizeGo, Tokenizer.splitLines,
      Tokenizer.lineToks, Tokenizer.scanStr, Tokenizer.opTok,
      Tokenizer.keywords, Tokenizer.isTwoCharOp, isSpaceCh, isDigitCh,
      isIdentStartCh, isWordCh, isNumCh, String.toList]
  have h2 : Tokenizer.tokenize "ab".toList
      = [⟨.IDENTIFIER, .str ['a', 'b'], 0⟩, ⟨.NEWLINE, .str ['\n'], 0⟩] := by
    simp [Tokenizer.tokenize, Tokenizer.tokenizeGo, Tokenizer.splitLines,
      Tokenizer.lineToks, Tokenizer.scanStr, Tokenizer.opTok,
      Tokenizer.keywords, Tokenizer.isTwoCharOp, isSpaceCh, isDigitCh,
      isIdentStartCh, isWordCh, isNumCh, String.toList]
  exact ⟨h1, h2, by rw [h1, h2]; decide⟩

/-- C5 (amended): an unknown character raises no tokenizer error, but it
is not discarded: a source consisting of one character that no other
branch accepts tokenizes to a single-character OPERATOR token (plus the
end-of-line NEWLINE token). -/
theorem unknown_char_tokenizes_as_operator (c : Char)
    (h1 : isSpaceCh c = false) (h2 : c ≠ '#') (h3 : c ≠ '"') (h4 : c ≠ '\'')
    (h5 : isDigitCh c = false) (h6 : isIdentStartCh c = false)
    (h7 : c ≠ '\n') (h8 : c ≠ ';') :
    Tokenizer.tokenize [c]
      = [⟨.OPERATOR, .str [c], 0⟩, ⟨.NEWLINE, .str ['\n'], 0⟩] := by
  simp [Tokenizer.tokenize, Tokenizer.tokenizeGo, Tokenizer.splitLines,
    Tokenizer.lineToks, Tokenizer.opTok, h1, h2, h3, h4, h5, h6, h7, h8]

/-- C5 (witness): the amended statement at the character `§`. -/
theorem unknown_char_tokenizes_as_operator_witness :
    Tokenizer.tokenize ['§']
      = [⟨.OPERATOR, .str ['§'], 0⟩, ⟨.NEWLINE, .str ['\n'], 0⟩] :=
  unknown_char_tokenizes_as_operator '§' (by decide) (by decide) (by decide)
    (by decide) (by decide) (by decide) (by decide) (by decide)

/-- C4 (code evaluated at the failing input): running the script
`function onKeyDown(e); end;` through the worker's `run` branch ends
with `done{result: "OK"}` — a terminated session — not in the
awaiting-events state the claim (and spec) require.  The worker calls
`interpret` from `src/interpreter.js`, whose token-level executor skips
the `function` keyword and treats `onKeyDown(e)` as a call to an
undefined name (yielding `undefined`, no registration); it never touches
`state.eventHandlers`, so the handler table stays all-null and the
worker posts `done`.  The `parse`/`evalNode` pipeline the worker imports
(whose `Function` case would register the handler) is never invoked. -/
theorem worker_onKeyDown_script_terminates :
    Worker.run "function onKeyDown(e); end;".toList = .done (some "OK")
    ∧ Worker.run "function onKeyDown(e); end;".toList ≠ .awaitingEvents := by
  constructor <;> decide

/-- C6 (counterexample): the relational operators do coerce across types:
`5 < "10"` evaluates to `true`, which is only possible because the string
operand is converted to the number 10 before comparing (code-unit
comparison of `"5"` and `"10"` would be `false`, as the third conjunct
shows for the all-string comparison `"5" < "10"`). -/
theorem less_than_coerces_string_to_number :
    evalNode (fun _ => none)
      (.binary "<" (.lit (.num ⟨5, 1⟩)) (.lit (.str ['1', '0']))) [[]] stInit
      = .ok (.boolean true, stInit)
    ∧ evalNode (fun _ => none)
      (.binary "<" (.lit (.str ['5'])) (.lit (.str ['1', '0']))) [[]] stInit
      = .ok (.boolean false, stInit) := by
  constructor <;>
    simp [evalNode, evalBinaryOp, interpolate, scanM, braceSplit, jsLess3,
      toPrim, valToNum, strToNum, parseDecBody, decValue, digitsToNat,
      hexVal, isSpaceCh, isDigitCh, digitVal, JSNum.ltb, qLt, strLt]

/-- C6 (amended): equality (`==`/`!=`) is strict — operands of different
runtime kinds are never equal — but the relational operators follow the
host's coercing comparison: two strings compare by code units, while a
number facing a string converts the string through the numeric grammar
and compares numerically. -/
theorem equality_strict_but_relational_coerces
    (v w : Val) (a b s : List Char) (p q : Q)
    (hk : v.kind ≠ w.kind)
    (hs : strToNum s = .fin q) :
    evalBinaryOp "==" v w = .ok (.boolean false)
    ∧ evalBinaryOp "!=" v w = .ok (.boolean true)
    ∧ evalBinaryOp "<" (.str a) (.str b) = .ok (.boolean (strLt a b))
    ∧ evalBinaryOp "<" (.num (.fin p)) (.str s) = .ok (.boolean (qLt p q)) := by
  have hne : strictEq v w = false := by
    cases v <;> cases w <;> simp_all [Val.kind, strictEq]
  refine ⟨?_, ?_, ?_, ?_⟩
  · simp [evalBinaryOp, hne]
  · simp [evalBinaryOp, hne]
  · simp [evalBinaryOp, jsLess3, toPrim]
  · simp [evalBinaryOp, jsLess3, toPrim, valToNum, hs, JSNum.ltb]

/-- C6 (witness): the amended statement at `5` versus `"10"` (and the
string pair `"5"`, `"10"`). -/
theorem equality_strict_but_relational_coerces_witness :
    evalBinaryOp "==" (.num (.fin ⟨5, 1⟩)) (.str ['1', '0']) = .ok (.boolean false)
    ∧ evalBinaryOp "!=" (.num (.fin ⟨5, 1⟩)) (.str ['1', '0']) = .ok (.boolean true)
    ∧ evalBinaryOp "<" (.str ['5']) (.str ['1', '0'])
        = .ok (.boolean (strLt ['5'] ['1', '0']))
    ∧ evalBinaryOp "<" (.num (.fin ⟨5, 1⟩)) (.str ['1', '0'])
        = .ok (.boolean (qLt ⟨5, 1⟩ ⟨10, 1⟩)) :=
  equality_strict_but_relational_coerces (.num (.fin ⟨5, 1⟩)) (.str ['1', '0'])
    ['5'] ['1', '0'] ['1', '0'] ⟨5, 1⟩ ⟨10, 1⟩ (by decide) (by decide)

theorem hexVal_digitChar (d : Nat) (h : d < 10) : hexVal (digitChar d) = d := by
  interval_cases d <;> decide

theorem isDigitCh_digitChar (d : Nat) (h : d < 10) :
    isDigitCh (digitChar d) = true := by
  interval_cases d <;> decide

theorem digitsToNat_append (b : Nat) (xs : List Char) (c : Char) :
    digitsToNat b (xs ++ [c]) = digitsToNat b xs * b + hexVal c := by
  simp [digitsToNat, List.foldl_append]

theorem natToDigits_ne_nil (n : Nat) : natToDigits n ≠ [] := by
  rw [natToDigits]
  split <;> simp

theorem natToDigits_all_digits (n : Nat) :
    (natToDigits n).all isDigitCh = true := by
  induction n using Nat.strong_induction_on with
  | _ n ih =>
    rw [natToDigits]
    split
    · rename_i hlt
      simp [isDigitCh_digitChar n hlt]
    · rename_i hge
      have h1 : n / 10 < n := by omega
      have := ih (n / 10) h1
      simp [List.all_append, this, isDigitCh_digitChar (n % 10) (by omega)]

theorem digitsToNat_natToDigits (n : Nat) :
    digitsToNat 10 (natToDigits n) = n := by
  induction n using Nat.strong_induction_on with
  | _ n ih =>
    rw [natToDigits]
    split
    · rename_i hlt
      simp [digitsToNat, hexVal_digitChar n hlt]
    · rename_i hge
      have h1 : n / 10 < n := by omega
      rw [digitsToNat_append, ih (n / 10) h1, hexVal_digitChar (n % 10) (by omega)]
      omega

theorem natToDigits_canonical (n : Nat) :
    natToDigits n = ['0'] ∨ (natToDigits n).head? ≠ some '0' := by
  induction n using Nat.strong_induction_on with
  | _ n ih =>
    rw [natToDigits]
    split
    · rename_i hlt
      interval_cases n <;> simp [digitChar]
    · rename_i hge
      right
      have h1 : n / 10 < n := by omega
      rcases ih (n / 10) h1 with hc | hc
      · have hrt := digitsToNat_natToDigits (n / 10)
        rw [hc] at hrt
        have h0 : digitsToNat 10 ['0'] = 0 := by decide
        omega
      · cases hnd : natToDigits (n / 10) with
        | nil => exact absurd hnd (natToDigits_ne_nil _)
        | cons a as => simp_all

theorem parseIndex_natToDigits (n : Nat) :
    parseIndex (String.mk (natToDigits n)) = some n := by
  have h1 := natToDigits_ne_nil n
  have h2 := natToDigits_all_digits n
  have h3 := natToDigits_canonical n
  have h4 := digitsToNat_natToDigits n
  simp [parseIndex, String.toList, h1, h2, h3, h4]

theorem numToStr_ofNat (i : Nat) : numToStr (.fin (Q.ofNat i)) = natToDigits i := by
  have hge : ¬ ((i : ℤ) < 0) := by omega
  simp [numToStr, Q.ofNat, intToStr, Int.gcd, Nat.gcd_one_right, Int.tdiv_one,
    Int.natAbs_ofNat, hge]

theorem getMember_arr_oob (r : Nat) (elems : List Val) (i : Nat)
    (h : elems.length ≤ i) :
    getMember (.arr r elems) (String.mk (natToDigits i)) = .undefined := by
  have hne : String.mk (natToDigits i) ≠ "length" := by
    intro hcontra
    have hl : natToDigits i = "length".toList := congrArg String.toList hcontra
    have hall := natToDigits_all_digits i
    rw [hl] at hall
    exact absurd hall (by decide)
  have hnone : elems[i]? = none := by
    simp [List.getElem?_eq_none_iff]
    exact h
  simp [getMember, hne, parseIndex_natToDigits i, hnone]

/-- C3: a `Get` whose base evaluates to `null` or `undefined` raises the
runtime error `Cannot access property of null/undefined`; an `Index`
whose base evaluates to `null` or `undefined` raises a runtime
`TypeError`; and indexing an array at any numeric index at or beyond its
length yields `undefined` without error. -/
theorem null_undefined_base_errors_oob_index_undefined
    (subEval : List Char → Option (List Char))
    (o ix ia ii : Node) (p : String) (env enva : Env)
    (st st₁ st₂ sta sta₁ sta₂ : EvalSt)
    (v iv : Val) (r i : Nat) (elems : List Val)
    (hv : v = Val.null ∨ v = Val.undefined)
    (ho : evalNode subEval o env st = .ok (v, st₁))
    (hix : evalNode subEval ix env st₁ = .ok (iv, st₂))
    (ha : evalNode subEval ia enva sta = .ok (.arr r elems, sta₁))
    (hii : evalNode subEval ii enva sta₁ = .ok (.num (.fin (Q.ofNat i)), sta₂))
    (hoob : elems.length ≤ i) :
    evalNode subEval (.get o p) env st
      = .error (.err "Cannot access property of null/undefined".toList, st₁)
    ∧ (∃ m, evalNode subEval (.index o ix) env st = .error (.err m, st₂))
    ∧ evalNode subEval (.index ia ii) enva sta = .ok (.undefined, sta₂) := by
  refine ⟨?_, ?_, ?_⟩
  · rcases hv with h | h <;> (subst h; simp [evalNode, ho, Val.truthy])
  · rcases hv with h | h
    · subst h
      exact ⟨"TypeError: Cannot read properties of null".toList,
        by simp [evalNode, ho, hix]⟩
    · subst h
      exact ⟨"TypeError: Cannot read properties of undefined".toList,
        by simp [evalNode, ho, hix]⟩
  · simp [evalNode, ha, hii, valToStr, numToStr_ofNat,
      getMember_arr_oob r elems i hoob]

/-- C3 (witness): the statement at base `null`, an empty array, and
index `0`. -/
theorem null_undefined_base_errors_oob_index_undefined_witness :
    evalNode (fun _ => none) (.get (.lit .null) "x") [[]] stInit
      = .error (.err "Cannot access property of null/undefined".toList, stInit)
    ∧ (∃ m, evalNode (fun _ => none)
        (.index (.lit .null) (.lit (.num ⟨0, 1⟩))) [[]] stInit
        = .error (.err m, stInit))
    ∧ evalNode (fun _ => none)
        (.index (.array []) (.lit (.num ⟨0, 1⟩))) [[]] stInit
        = .ok (.undefined, { stInit with nextRef := 1 }) :=
  null_undefined_base_errors_oob_index_undefined (fun _ => none)
    (.lit .null) (.lit (.num ⟨0, 1⟩)) (.array []) (.lit (.num ⟨0, 1⟩)) "x"
    [[]] [[]] stInit stInit stInit stInit { stInit with nextRef := 1 }
    { stInit with nextRef := 1 }
    .null (.num (.fin ⟨0, 1⟩)) 0 0 []
    (Or.inl rfl)
    (by simp [evalNode])
    (by simp [evalNode])
    (by simp [evalNode, evalList, stInit])
    (by simp [evalNode, Q.ofNat])
    (by decide)

/-! ## Interpolation analysis (C8)

What the fold of first-occurrence replacements actually computes on a
string decomposed into segments, and a concrete run where a successful
substitution lands at another hole's position. -/

/-- The hole expressions of a segment list, in order — what the match
scanner finds on the rendered string. -/
def holesOf : List Seg → List (List Char)
  | [] => []
  | .lit _ :: rest => holesOf rest
  | .hole e :: rest => e :: holesOf rest

/-- A segment already processed by the replacement fold: literal text
(original or a substituted value) free of `$`, or a hole whose evaluation
failed and whose original text therefore still stands. -/
def doneOK (ev : List Char → Option (List Char)) : Seg → Prop
  | .lit s => ∀ c ∈ s, ¬ c = '$'
  | .hole e => ev e = none ∧ e ≠ [] ∧ ∀ c ∈ e, plainChar c = true

/-- Concrete sub-expression evaluator for the counterexample: `e`
evaluates to the text `"${s}"` of the third hole, `f` fails, `s`
evaluates to `"V"`. -/
def evC8 (e : List Char) : Option (List Char) :=
  if e = ['e'] then some (holeText ['s'])
  else if e = ['s'] then some ['V']
  else none

/-- Concrete sub-expression evaluator for the amended statement's
witness: `x` evaluates to `"1"`, everything else fails. -/
def evC8w (e : List Char) : Option (List Char) :=
  if e = ['x'] then some ['1'] else none

theorem renderSegs_cons (g : Seg) (rest : List Seg) :
    renderSegs (g :: rest) = g.render ++ renderSegs rest := by
  simp [renderSegs]

theorem suffix_append_cases {t X Y : List Char} (h : t <:+ X ++ Y) :
    t <:+ Y ∨ ∃ t₁, t₁ <:+ X ∧ t₁ ≠ [] ∧ t = t₁ ++ Y := by
  obtain ⟨u, hu⟩ := h
  rcases List.append_eq_append_iff.mp hu with ⟨a, ha1, ha2⟩ | ⟨c, hc1, hc2⟩
  · rcases eq_or_ne a [] with rfl | hne
    · left
      simp at ha2
      exact ha2 ▸ List.suffix_refl Y
    · right
      exact ⟨a, ⟨u, ha1.symm⟩, hne, ha2⟩
  · left
    exact ⟨c, hc2.symm⟩

theorem replaceFirst_self (s pat : List Char) : replaceFirst s pat pat = s := by
  induction s with
  | nil =>
    rw [replaceFirst.eq_def]
    split
    · rename_i h
      obtain ⟨t, ht⟩ := List.isPrefixOf_iff_prefix.mp h
      rw [← ht, List.drop_left]
    · rfl
  | cons c cs ih =>
    rw [replaceFirst]
    split
    · rename_i h
      obtain ⟨t, ht⟩ := List.isPrefixOf_iff_prefix.mp h
      rw [← ht, List.drop_left]
    · simp [ih]

theorem replaceFirst_here (x pat rep : List Char) :
    replaceFirst (pat ++ x) pat rep = rep ++ x := by
  rw [replaceFirst.eq_def]
  have h : pat.isPrefixOf (pat ++ x) = true :=
    List.isPrefixOf_iff_prefix.mpr ⟨x, rfl⟩
  simp [h, List.drop_left]

theorem replaceFirst_no_match_left (pat rep : List Char) :
    ∀ (a b : List Char),
      (∀ t, t <:+ a → t ≠ [] → pat.isPrefixOf (t ++ b) = false) →
      replaceFirst (a ++ b) pat rep = a ++ replaceFirst b pat rep := by
  intro a
  induction a with
  | nil => simp
  | cons c a' ih =>
    intro b h
    have hc : pat.isPrefixOf ((c :: a') ++ b) = false :=
      h (c :: a') (List.suffix_refl _) (by simp)
    rw [List.cons_append, replaceFirst]
    simp only [List.cons_append] at hc
    rw [hc]
    simp only [Bool.false_eq_true, if_false]
    rw [ih b (fun t ht hne => h t (ht.trans (List.suffix_cons c a')) hne)]
    simp

theorem plain_brace_no_cross :
    ∀ (e e' x : List Char), e ≠ e' →
      (∀ c ∈ e, plainChar c = true) → (∀ c ∈ e', plainChar c = true) →
      (e ++ ['}']).isPrefixOf (e' ++ '}' :: x) = false := by
  intro e
  induction e with
  | nil =>
    intro e' x hne hp hp'
    cases e' with
    | nil => exact absurd rfl hne
    | cons b e'' =>
      have hb := hp' b (by simp)
      have hb' : ¬ ('}' = b) := by
        simp [plainChar] at hb
        exact fun hcontra => hb.2.2 hcontra.symm
      simp [List.isPrefixOf, hb']
  | cons a e ih =>
    intro e' x hne hp hp'
    cases e' with
    | nil =>
      have ha := hp a (by simp)
      have ha' : ¬ (a = '}') := by
        simp [plainChar] at ha
        exact ha.2.2
      simp [List.isPrefixOf, ha']
    | cons b e'' =>
      by_cases hab : a = b
      · subst hab
        have hne' : e ≠ e'' := fun hcontra => hne (by rw [hcontra])
        simp only [List.cons_append, List.isPrefixOf, beq_self_eq_true,
          Bool.true_and]
        exact ih e'' x hne' (fun c hc => hp c (by simp [hc]))
          (fun c hc => hp' c (by simp [hc]))
      · simp [List.isPrefixOf, hab]

theorem holeText_no_cross (e e' x : List Char) (hne : e ≠ e')
    (hp : ∀ c ∈ e, plainChar c = true) (hp' : ∀ c ∈ e', plainChar c = true) :
    (holeText e).isPrefixOf (holeText e' ++ x) = false := by
  have h := plain_brace_no_cross e e' x hne hp hp'
  simpa [holeText, List.isPrefixOf, List.append_assoc] using h

theorem scanM_append_plain :
    ∀ (s t : List Char), (∀ c ∈ s, ¬ c = '$') → scanM (s ++ t) = scanM t := by
  intro s
  induction s with
  | nil => simp
  | cons c s' ih =>
    intro t h
    have hc : ¬ c = '$' := h c (by simp)
    rw [List.cons_append, scanM.eq_def]
    simp only [hc, if_false]
    exact ih t (fun x hx => h x (by simp [hx]))

theorem scanM_renderSegs :
    ∀ (segs : List Seg), (∀ g ∈ segs, segWF g = true) →
      scanM (renderSegs segs) = holesOf segs := by
  intro segs
  induction segs with
  | nil =>
    intro _
    simp [renderSegs, scanM, holesOf]
  | cons g rest ih =>
    intro h
    have hg := h g (by simp)
    have hrest := ih (fun x hx => h x (by simp [hx]))
    rw [renderSegs_cons]
    cases g with
    | lit s =>
      have hs : ∀ c ∈ s, ¬ c = '$' := by
        intro c hc
        have := hg
        simp [segWF] at this
        exact this c hc
      rw [Seg.render, scanM_append_plain s _ hs, hrest]
      simp [holesOf]
    | hole e =>
      have hwt : e ≠ [] ∧ ∀ c ∈ e, plainChar c = true := by
        have := hg
        simp [segWF, List.isEmpty_iff] at this
        exact this
      have hshape : Seg.render (.hole e) ++ renderSegs rest
          = '$' :: '{' :: (e ++ '}' :: renderSegs rest) := by
        simp [Seg.render, holeText]
      rw [hshape, scanM]
      have hbs : braceSplit (e ++ '}' :: renderSegs rest)
          = some (e, renderSegs rest) :=
        braceSplit_append hwt.1
          (fun c hc => by
            have := hwt.2 c hc
            simp [plainChar] at this
            exact this.2.2)
      rw [if_pos rfl]
      split
      · rename_i e1 after heq
        rw [hbs] at heq
        injection heq with hpair
        injection hpair with h1 h2
        subst h1
        subst h2
        simp [holesOf, hrest]
      · rename_i heq
        rw [hbs] at heq
        exact absurd heq (by simp)

theorem no_match_in_done (ev : List Char → Option (List Char))
    (e v : List Char) (hev : ev e = some v)
    (he : e ≠ []) (hep : ∀ c ∈ e, plainChar c = true) :
    ∀ (done : List Seg), (∀ g ∈ done, doneOK ev g) →
      ∀ t b, t <:+ renderSegs done → t ≠ [] →
        (holeText e).isPrefixOf (t ++ b) = false := by
  intro done
  induction done with
  | nil =>
    intro _ t b ht hne
    simp [renderSegs] at ht
    exact absurd ht hne
  | cons g rest ih =>
    intro hd t b ht hne
    have hdg : doneOK ev g := hd g (by simp)
    have hdr : ∀ x ∈ rest, doneOK ev x := fun x hx => hd x (by simp [hx])
    rw [renderSegs_cons] at ht
    rcases suffix_append_cases ht with hcase | ⟨t₁, ht₁, hne₁, rfl⟩
    · exact ih hdr t b hcase hne
    · rw [List.append_assoc]
      cases g with
      | lit s =>
        cases t₁ with
        | nil => exact absurd rfl hne₁
        | cons c t₁' =>
          have hc : c ∈ s := ht₁.subset (by simp)
          have hcd : ¬ ('$' = c) := by
            have := hdg
            simp only [doneOK] at this
            exact fun hcontra => this c hc hcontra.symm
          simp [holeText, List.isPrefixOf, hcd]
      | hole e' =>
        obtain ⟨hev', hne', hep'⟩ : ev e' = none ∧ e' ≠ [] ∧
            ∀ c ∈ e', plainChar c = true := hdg
        have hrender : Seg.render (.hole e')
            = '$' :: ('{' :: (e' ++ ['}'])) := by
          simp [Seg.render, holeText]
        rw [hrender] at ht₁
        rcases List.suffix_cons_iff.mp ht₁ with rfl | ht₂
        · have hnee : e ≠ e' := by
            intro hcontra
            rw [hcontra, hev'] at hev
            exact Option.noConfusion hev
          have h := holeText_no_cross e e' (renderSegs rest ++ b) hnee hep hep'
          simpa [holeText, List.append_assoc] using h
        · rcases List.suffix_cons_iff.mp ht₂ with rfl | ht₃
          · simp [holeText, List.isPrefixOf]
          · cases t₁ with
            | nil => exact absurd rfl hne₁
            | cons c t₁' =>
              have hc : c ∈ e' ++ ['}'] := ht₃.subset (by simp)
              have hcd : ¬ ('$' = c) := by
                rcases List.mem_append.mp hc with hm | hm
                · have := hep' c hm
                  simp [plainChar] at this
                  exact fun hcontra => this.1 hcontra.symm
                · simp at hm
                  subst hm
                  decide
              simp [holeText, List.isPrefixOf, hcd]

theorem fold_subst (ev : List Char → Option (List Char))
    (hv : ∀ e w, ev e = some w → ∀ c ∈ w, ¬ c = '$') :
    ∀ (pending done : List Seg),
      (∀ g ∈ pending, segWF g = true) →
      (∀ g ∈ done, doneOK ev g) →
      (holesOf pending).foldl
        (fun acc e => replaceFirst acc (holeText e)
          (match ev e with | some w => w | none => holeText e))
        (renderSegs (done ++ pending))
      = renderSegs (done ++ pending.map (substSeg ev)) := by
  intro pending
  induction pending with
  | nil =>
    intro done _ _
    simp [holesOf]
  | cons g rest ih =>
    intro done hp hd
    have hprest : ∀ x ∈ rest, segWF x = true := fun x hx => hp x (by simp [hx])
    have hpg : segWF g = true := hp g (by simp)
    cases g with
    | lit s =>
      have hasoc : done ++ Seg.lit s :: rest = (done ++ [Seg.lit s]) ++ rest := by
        simp
      have hd' : ∀ x ∈ done ++ [Seg.lit s], doneOK ev x := by
        intro x hx
        rcases List.mem_append.mp hx with hmem | hmem
        · exact hd x hmem
        · simp at hmem
          subst hmem
          intro c hc
          simp [segWF] at hpg
          exact hpg c hc
      simp only [holesOf]
      rw [hasoc, ih (done ++ [Seg.lit s]) hprest hd']
      simp [substSeg]
    | hole e =>
      have hwt : e ≠ [] ∧ ∀ c ∈ e, plainChar c = true := by
        simp [segWF, List.isEmpty_iff] at hpg
        exact hpg
      simp only [holesOf, List.foldl_cons]
      cases hev : ev e with
      | none =>
        simp only [hev]
        rw [replaceFirst_self]
        have hd' : ∀ x ∈ done ++ [Seg.hole e], doneOK ev x := by
          intro x hx
          rcases List.mem_append.mp hx with hmem | hmem
          · exact hd x hmem
          · simp at hmem
            subst hmem
            exact ⟨hev, hwt.1, hwt.2⟩
        have hasoc : done ++ Seg.hole e :: rest
            = (done ++ [Seg.hole e]) ++ rest := by simp
        rw [hasoc, ih (done ++ [Seg.hole e]) hprest hd']
        simp [substSeg, hev]
      | some w =>
        have hw : ∀ c ∈ w, ¬ c = '$' := hv e w hev
        have hsplit : renderSegs (done ++ Seg.hole e :: rest)
            = renderSegs done ++ (holeText e ++ renderSegs rest) := by
          simp [renderSegs, Seg.render]
        have hnm : ∀ t, t <:+ renderSegs done → t ≠ [] →
            (holeText e).isPrefixOf (t ++ (holeText e ++ renderSegs rest))
              = false :=
          fun t ht hne =>
            no_match_in_done ev e w hev hwt.1 hwt.2 done hd t _ ht hne
        have hstep :
            replaceFirst (renderSegs done ++ (holeText e ++ renderSegs rest))
              (holeText e) w = renderSegs done ++ (w ++ renderSegs rest) := by
          rw [replaceFirst_no_match_left (holeText e) w (renderSegs done) _ hnm,
            replaceFirst_here]
        simp only [hev]
        rw [hsplit, hstep]
        have hjoin : renderSegs done ++ (w ++ renderSegs rest)
            = renderSegs ((done ++ [Seg.lit w]) ++ rest) := by
          simp [renderSegs, Seg.render]
        have hd' : ∀ x ∈ done ++ [Seg.lit w], doneOK ev x := by
          intro x hx
          rcases List.mem_append.mp hx with hmem | hmem
          · exact hd x hmem
          · simp at hmem
            subst hmem
            exact hw
        rw [hjoin, ih (done ++ [Seg.lit w]) hprest hd']
        simp [substSeg, hev]

/-- C8 (counterexample): a failing hole does keep its original text and
does not abort evaluation, but the surrounding substitutions are not
positional: on `"${e}${f}${s}"` with `e` evaluating to the text `"${s}"`,
`f` failing and `s` evaluating to `"V"`, the fold of first-occurrence
replacements yields `"V${f}${s}"` — the value of `s` lands at the first
hole's position (whose own substituted value `"${s}"` is consumed as a
match) and the original text of `s` survives at the end.  The claim's
described result, substitution of each segment in place, is
`"${s}${f}V"`, which differs. -/
theorem failing_hole_keeps_text_but_substitution_misplaced :
    interpolate evC8 (holeText ['e'] ++ holeText ['f'] ++ holeText ['s'])
      = 'V' :: (holeText ['f'] ++ holeText ['s'])
    ∧ interpolate evC8 (holeText ['e'] ++ holeText ['f'] ++ holeText ['s'])
      ≠ renderSegs
          ([Seg.hole ['e'], Seg.hole ['f'], Seg.hole ['s']].map
            (substSeg evC8)) := by
  have h1 : interpolate evC8 (holeText ['e'] ++ holeText ['f'] ++ holeText ['s'])
      = 'V' :: (holeText ['f'] ++ holeText ['s']) := by
    simp [interpolate, scanM, braceSplit, replaceFirst, holeText, evC8,
      List.isPrefixOf]
  refine ⟨h1, ?_⟩
  rw [h1]
  decide

/-- C8 (amended): on a string decomposed into well-formed segments
(literal text free of `$`; holes `\x24\x7bexpr\x7d` with non-empty,
delimiter-free expressions), when every successful sub-expression value
is itself free of `$`, `interpolate` computes exactly the segment-wise
substitution the specification describes: each hole whose evaluation
succeeds is replaced by its value in place, each hole whose evaluation
fails keeps its original text in place, the failure is not propagated,
and literal text is untouched.  (The counterexample shows the `$`-free
proviso on values is necessary.) -/
theorem interpolate_substitutes_segmentwise
    (ev : List Char → Option (List Char)) (segs : List Seg)
    (hwf : ∀ g ∈ segs, segWF g = true)
    (hv : ∀ e w, ev e = some w → ∀ c ∈ w, ¬ c = '$') :
    interpolate ev (renderSegs segs) = renderSegs (segs.map (substSeg ev)) := by
  unfold interpolate
  rw [scanM_renderSegs segs hwf]
  have h := fold_subst ev hv segs [] hwf (by simp)
  simpa using h

/-- C8 (witness): the amended statement on `"a${x}${y}b"` with `x`
evaluating to `"1"` and `y` failing. -/
theorem interpolate_substitutes_segmentwise_witness :
    interpolate evC8w
      (renderSegs [Seg.lit ['a'], .hole ['x'], .hole ['y'], .lit ['b']])
      = renderSegs
          ([Seg.lit ['a'], .hole ['x'], .hole ['y'], .lit ['b']].map
            (substSeg evC8w)) :=
  interpolate_substitutes_segmentwise evC8w
    [Seg.lit ['a'], .hole ['x'], .hole ['y'], .lit ['b']]
    (by decide)
    (by
      intro e w hew c hc
      rw [evC8w] at hew
      split at hew
      · injection hew with hw
        subst hw
        simp at hc
        subst hc
        decide
      · exact Option.noConfusion hew)
